import Mathlib

/-!
Verification of the canvas-room worker (CanvasToolHandler / TldrawDurableObject).

Shallow embedding of the widget tool handlers, the room accessor and the
throttled persistence scheduler.  Records are modelled as a tagged union of
page records, shape records and other record kinds; JavaScript falsy-default
idioms (`v || d`, `!v`) are modelled explicitly by the jsStrOr / jsIntOr /
jsTruthy helpers so that the empty-string and zero cases of the source are
preserved exactly.
-/

/-- Key-value storage map of a widget (`miyagiStorage`), as an association
list in insertion order, mirroring a JS object of string values. -/
abbrev Storage := List (String × String)

/-- Lookup in a storage map: first entry with the given key. -/
def lookupStorage (st : Storage) (k : String) : Option String :=
  (st.find? (fun p => p.1 == k)).map (fun p => p.2)

/-- Models the JS idiom `v || d` for a possibly-undefined string `v`:
the default is used when `v` is undefined or the empty string (falsy). -/
def jsStrOr (v : Option String) (d : String) : String :=
  match v with
  | some s => if s = "" then d else s
  | none => d

/-- Models the JS idiom `v || d` for a possibly-undefined number `v`:
the default is used when `v` is undefined or zero (falsy). -/
def jsIntOr (v : Option Int) (d : Int) : Int :=
  match v with
  | some x => if x = 0 then d else x
  | none => d

/-- Models JS truthiness of a possibly-undefined string (`undefined` and
the empty string are falsy). -/
def jsTruthyStr (v : Option String) : Bool :=
  match v with
  | some s => !(s == "")
  | none => false

/-- Models JS truthiness of a possibly-undefined boolean. -/
def jsTruthyBool (v : Option Bool) : Bool :=
  match v with
  | some b => b
  | none => false

/-- The props bag of a `miyagi-widget` shape record, as validated by the
server schema (w, h, widgetId, templateId, htmlContent, color, and the
optional miyagiStorage dictionary). -/
structure WidgetProps where
  w : Int
  h : Int
  widgetId : String
  templateId : String
  htmlContent : String
  color : String
  miyagiStorage : Option Storage
deriving DecidableEq

/-- A shape record.  The tool handlers only read `props` after filtering to
`type = "miyagi-widget"`; props of other shape types are never consumed, so
the widget props bag stands for the props of every shape here. -/
structure ShapeRec where
  id : String
  type : String
  parentId : String
  index : String
  x : Int
  y : Int
  rotation : Int
  isLocked : Bool
  opacity : Int
  meta : List (String × String)
  props : WidgetProps
deriving DecidableEq

/-- A page record (`typeName = "page"`): id, optional human-readable name,
and fractional ordering index. -/
structure PageRec where
  id : String
  name : Option String
  index : String
deriving DecidableEq

/-- A record of the room store: a page, a shape, or any other record kind
(camera, instance, binding, ...) carrying only its id. -/
inductive Rec where
  | page : PageRec → Rec
  | shape : ShapeRec → Rec
  | other : String → Rec
deriving DecidableEq

/-- The id of a record. -/
def Rec.rid : Rec → String
  | .page p => p.id
  | .shape s => s.id
  | .other i => i

/-- Project a record to a shape record when it is one. -/
def shapeOf? : Rec → Option ShapeRec
  | .shape s => some s
  | _ => none

/-- Project a record to a page record when it is one. -/
def pageOf? : Rec → Option PageRec
  | .page p => some p
  | _ => none

/-- All page records of the room, in store iteration order. -/
def pagesOf (records : List Rec) : List PageRec :=
  records.filterMap pageOf?

/-- Whether the store holds a record with the given id. -/
def anyRid : List Rec → String → Bool
  | [], _ => false
  | r :: rest, i => r.rid == i || anyRid rest i

/-- Replace every record carrying the given id by `r`. -/
def replaceRid (rs : List Rec) (i : String) (r : Rec) : List Rec :=
  rs.map (fun q => if q.rid == i then r else q)

/-- `store.put(record)`: upsert keyed by record id — replace the record with
that id when present, else append the new record. -/
def putRecord (rs : List Rec) (r : Rec) : List Rec :=
  if anyRid rs r.rid then replaceRid rs r.rid r else rs ++ [r]

/-- View of a page returned by the get-pages handler. -/
structure PageView where
  id : String
  name : String
  index : String
deriving DecidableEq

/-- `handleGetPages`: filter records to pages, project to id / name / index
with `page.name || 'Untitled'`, and derive `defaultPage = pages[0]?.id || null`.
Never fails. -/
def handleGetPages (records : List Rec) : List PageView × Option String :=
  let pages := (pagesOf records).map
    (fun p => PageView.mk p.id (jsStrOr p.name "Untitled") p.index)
  (pages,
    match pages.head? with
    | some pv => if pv.id = "" then none else some pv.id
    | none => none)

/-- Splitter for comma-separated query parameters, mirroring JS
`str.split(',')` (never returns an empty list; `""` splits to `[""]`). -/
def splitCommaAux : List Char → List Char → List String
  | [], acc => [String.mk acc.reverse]
  | c :: rest, acc =>
    if c = ',' then String.mk acc.reverse :: splitCommaAux rest []
    else splitCommaAux rest (c :: acc)

/-- `raw.split(',')` on a query parameter string. -/
def splitParam (s : String) : List String :=
  splitCommaAux s.toList []

/-- Field selection of the get-widgets handler: a projection is included
when the `fields` parameter is absent or contains the field name. -/
def includeF (fields : Option (List String)) (n : String) : Bool :=
  match fields with
  | none => true
  | some fs => fs.contains n

/-- View of a widget returned by the get-widgets handler: id / widgetId /
templateId always, the five optional projections only when selected. -/
structure WidgetView where
  id : String
  widgetId : String
  templateId : String
  htmlContent : Option String
  miyagiStorage : Option Storage
  position : Option (Int × Int)
  size : Option (Int × Int)
  properties : Option WidgetProps
deriving DecidableEq

/-- Build the view of one widget shape under a field selection. -/
def widgetView (fields : Option (List String)) (s : ShapeRec) : WidgetView where
  id := s.id
  widgetId := s.props.widgetId
  templateId := s.props.templateId
  htmlContent := if includeF fields "htmlContent" then some s.props.htmlContent else none
  miyagiStorage := if includeF fields "miyagiStorage" then some (s.props.miyagiStorage.getD []) else none
  position := if includeF fields "position" then some (s.x, s.y) else none
  size := if includeF fields "size" then some (s.props.w, s.props.h) else none
  properties := if includeF fields "properties" then some s.props else none

/-- The page filter of get-widgets: `(!pageId || record.parentId === pageId)` —
no constraint when the parameter is absent or empty (falsy). -/
def pageFilter (pageId : Option String) (s : ShapeRec) : Bool :=
  match pageId with
  | none => true
  | some p => if p = "" then true else s.parentId == p

/-- `handleGetWidgets`: filter all records to `typeName = 'shape'` and
`type = 'miyagi-widget'` under the page filter, then filter by the split
`ids` parameter when present and non-empty, then map to views under the
split `fields` parameter.  Also echoes `pageId || 'page:page'`. -/
def handleGetWidgets (records : List Rec) (pageId idsRaw fieldsRaw : Option String) :
    List WidgetView × String :=
  let ids := idsRaw.map splitParam
  let fields := fieldsRaw.map splitParam
  let ws1 : List ShapeRec := records.filterMap (fun r =>
    match r with
    | Rec.shape s =>
      if s.type == "miyagi-widget" && pageFilter pageId s then some s else none
    | _ => none)
  let ws2 :=
    match ids with
    | some l => if l.length > 0 then ws1.filter (fun s : ShapeRec => l.contains s.id) else ws1
    | none => ws1
  (ws2.map (widgetView fields), jsStrOr pageId "page:page")

/-- The literal placeholder opener matched by `processTemplate`:
the regex `\{\{miyagi-storage:([^}]+)\}\}` begins with this prefix. -/
def pmPrefix : List Char :=
  ['\x7b', '\x7b', 'm', 'i', 'y', 'a', 'g', 'i', '-', 's', 't', 'o', 'r', 'a', 'g', 'e', ':']

/-- Strip a literal prefix from a character list, or fail. -/
def dropPrefixCh : List Char → List Char → Option (List Char)
  | [], l => some l
  | _ :: _, [] => none
  | p :: ps, c :: cs => if p = c then dropPrefixCh ps cs else none

/-- Template substitution context: the found widget current widgetId and
storage (the source passes widgetId along but the replacement only reads
the storage map). -/
structure TemplateCtx where
  widgetId : String
  miyagiStorage : Storage
deriving DecidableEq

/-- Regex match attempt at one position, for the global replace
`html.replace(/\{\{miyagi-storage:([^}]+)\}\}/g, (_, key) => storage[key] || '')`:
a match requires the literal prefix, then a non-empty greedy run of
characters other than the closing brace (the key), then two closing
braces; on success the replacement is the storage value of the key (the
empty string when the key is missing or maps to the empty string), paired
with the remainder of the input after the match. -/
def matchPlaceholder (st : Storage) (l : List Char) : Option (String × List Char) :=
  match dropPrefixCh pmPrefix l with
  | none => none
  | some rem =>
    match rem.takeWhile (fun ch => ch ≠ '\x7d'), rem.dropWhile (fun ch => ch ≠ '\x7d') with
    | k :: ks, '\x7d' :: '\x7d' :: r2 =>
      some ((lookupStorage st (String.mk (k :: ks))).getD "", r2)
    | _, _ => none

/-- The position-by-position scan of the global replace: where a
placeholder matches, emit its replacement and resume after the match,
else emit the character and move one position right. -/
def substLoop (st : Storage) : Nat → List Char → List Char
  | 0, l => l
  | _ + 1, [] => []
  | fuel + 1, c :: rest =>
    match matchPlaceholder st (c :: rest) with
    | some (v, r2) => v.toList ++ substLoop st fuel r2
    | none => c :: substLoop st fuel rest

/-- The substitution scan at its canonical fuel (the input length). -/
def substT (st : Storage) (l : List Char) : List Char :=
  substLoop st l.length l

/-- `processTemplate(htmlContent, context)`: run the placeholder
substitution over the given html against the context storage map. -/
def processTemplate (htmlContent : String) (ctx : TemplateCtx) : String :=
  String.mk (substT ctx.miyagiStorage htmlContent.toList)

/-- Structured failures of the widget tool handlers. -/
inductive ToolErr where
  | missingTemplateId
  | missingHtmlContent
  | widgetNotFound
  | missingPrompt
deriving DecidableEq

/-- The find of the edit handler:
`allRecords.find(r => r.id === shapeId && r.typeName === 'shape' && r.type === 'miyagi-widget')`. -/
def findWidget : List Rec → String → Option ShapeRec
  | [], _ => none
  | r :: rest, sid =>
    match r with
    | .shape s =>
      if s.id == sid && s.type == "miyagi-widget" then some s else findWidget rest sid
    | _ => findWidget rest sid

/-- The built-in template table of `getTemplateHtml`, with the generic
fallback markup for unrecognized template ids. -/
def getTemplateHtml (templateId : String) : String :=
  if templateId = "timer" then
    "<div style=\"padding: 20px; background: #f0f0f0; border-radius: 8px;\"><h3>Timer Widget</h3><div>00:00</div></div>"
  else if templateId = "notepad" then
    "<div style=\"padding: 20px; background: #fff; border: 1px solid #ddd; border-radius: 8px;\"><h3>Notepad</h3><textarea style=\"width: 100%; height: 100px; border: none; resize: none;\" placeholder=\"\x7b\x7bmiyagi-storage:notepad-content\x7d\x7d\"></textarea></div>"
  else if templateId = "clock" then
    "<div style=\"padding: 20px; background: #333; color: white; border-radius: 8px; text-align: center;\"><h3>Clock</h3><div id=\"clock-time\">12:00 PM</div></div>"
  else if templateId = "weather" then
    "<div style=\"padding: 20px; background: linear-gradient(135deg, #74b9ff, #0984e3); color: white; border-radius: 8px;\"><h3>Weather</h3><div>Sunny, 72Â°F</div></div>"
  else
    "<div style=\"padding: 20px; background: #f8f9fa; border-radius: 8px;\"><h3>" ++ templateId ++ "</h3><p>Widget content</p></div>"

/-- Request body of the add-widget handler. -/
structure AddBody where
  templateId : Option String
  pageId : Option String
  position : Option (Int × Int)
  size : Option (Int × Int)
deriving DecidableEq

/-- The new shape written by `handleAddWidget`: fresh id from the random
token, widgetId from templateId and the current time, parentId from
`pageId || 'page:page'`, position and size from the truthy-defaulted
request values, fixed index / rotation / lock / opacity / color, empty
storage. -/
def addWidgetShape (body : AddBody) (idTok : String) (now : Nat) : ShapeRec where
  id := "shape:" ++ idTok
  type := "miyagi-widget"
  parentId := jsStrOr body.pageId "page:page"
  index := "a1"
  x := jsIntOr (body.position.map Prod.fst) 300
  y := jsIntOr (body.position.map Prod.snd) 200
  rotation := 0
  isLocked := false
  opacity := 1
  meta := []
  props :=
    { w := jsIntOr (body.size.map Prod.fst) 300
      h := jsIntOr (body.size.map Prod.snd) 200
      widgetId := body.templateId.getD "" ++ "_" ++ toString now
      templateId := body.templateId.getD ""
      htmlContent := getTemplateHtml (body.templateId.getD "")
      color := "black"
      miyagiStorage := some [] }

/-- `handleAddWidget`: reject a falsy templateId, else write the new widget
shape into the store and return `(records, shapeId, widgetId, templateId)`. -/
def handleAddWidget (records : List Rec) (body : AddBody) (idTok : String) (now : Nat) :
    Except ToolErr (List Rec × String × String × String) :=
  if jsTruthyStr body.templateId = false then .error .missingTemplateId
  else
    let s := addWidgetShape body idTok now
    .ok (putRecord records (.shape s), s.id, s.props.widgetId, s.props.templateId)

/-- Request body of the edit-widget-html handler. -/
structure EditBody where
  htmlContent : Option String
  preserveStorage : Option Bool
deriving DecidableEq

/-- `handleEditWidgetHtml`: reject a falsy htmlContent; find the widget
shape by id (404 when absent); substitute placeholders in the supplied html
against the found widget widgetId and storage; overwrite htmlContent with
the substituted result, clearing storage unless preserveStorage is truthy;
put the updated shape and return the substituted html. -/
def handleEditWidgetHtml (records : List Rec) (shapeId : String) (body : EditBody) :
    Except ToolErr (List Rec × String) :=
  if jsTruthyStr body.htmlContent = false then .error .missingHtmlContent
  else
    match findWidget records shapeId with
    | none => .error .widgetNotFound
    | some s =>
      let processedHtml :=
        processTemplate (body.htmlContent.getD "")
          ⟨s.props.widgetId, s.props.miyagiStorage.getD []⟩
      let updated : ShapeRec :=
        { s with props :=
          { s.props with
            htmlContent := processedHtml
            miyagiStorage :=
              if jsTruthyBool body.preserveStorage then s.props.miyagiStorage else some [] } }
      .ok (putRecord records (.shape updated), processedHtml)

/-- Request body of the generate-widget handler. -/
structure GenBody where
  prompt : Option String
  style : Option String
  pageId : Option String
  position : Option (Int × Int)
  autoAdd : Option Bool
deriving DecidableEq

/-- Prefix test on character lists. -/
def chPrefix : List Char → List Char → Bool
  | [], _ => true
  | _ :: _, [] => false
  | a :: as, b :: bs => a == b && chPrefix as bs

/-- Substring test on character lists. -/
def chHasSub (pat : List Char) : List Char → Bool
  | [] => chPrefix pat []
  | c :: rest => chPrefix pat (c :: rest) || chHasSub pat rest

/-- Models JS `s.includes(pat)`. -/
def strIncludes (s pat : String) : Bool :=
  chHasSub pat.toList s.toList

/-- The keyword heuristic of `generateBasicWidget` over the lowercased
prompt: calculator, todo/task, or the generic prompt-echoing markup. -/
def generateBasicWidget (prompt : String) : String :=
  let lowerPrompt := prompt.toLower
  if strIncludes lowerPrompt "calculator" then
    "<div style=\"padding: 20px; background: #f8f9fa; border-radius: 8px;\"><h3>Calculator</h3><div style=\"display: grid; grid-template-columns: repeat(4, 1fr); gap: 5px; margin-top: 10px;\"><button>7</button><button>8</button><button>9</button><button>/</button><button>4</button><button>5</button><button>6</button><button>*</button><button>1</button><button>2</button><button>3</button><button>-</button><button>0</button><button>.</button><button>=</button><button>+</button></div></div>"
  else if strIncludes lowerPrompt "todo" || strIncludes lowerPrompt "task" then
    "<div style=\"padding: 20px; background: #f8f9fa; border-radius: 8px;\"><h3>Todo List</h3><div><input type=\"checkbox\"> Task 1</div><div><input type=\"checkbox\"> Task 2</div><div><input type=\"checkbox\"> Task 3</div></div>"
  else
    "<div style=\"padding: 20px; background: #f8f9fa; border-radius: 8px;\"><h3>Generated Widget</h3><p>" ++ prompt ++ "</p></div>"

/-- The new shape written by `handleGenerateWidget` when autoAdd is truthy:
like the add-widget shape but with templateId fixed to "generated-widget",
widgetId prefixed "generated_", default position 400 / 300 and fixed size
300 x 200. -/
def generateWidgetShape (body : GenBody) (idTok : String) (now : Nat) : ShapeRec where
  id := "shape:" ++ idTok
  type := "miyagi-widget"
  parentId := jsStrOr body.pageId "page:page"
  index := "a1"
  x := jsIntOr (body.position.map Prod.fst) 400
  y := jsIntOr (body.position.map Prod.snd) 300
  rotation := 0
  isLocked := false
  opacity := 1
  meta := []
  props :=
    { w := 300
      h := 200
      widgetId := "generated_" ++ toString now
      templateId := "generated-widget"
      htmlContent := generateBasicWidget (body.prompt.getD "")
      color := "black"
      miyagiStorage := some [] }

/-- Result of the generate-widget handler: the generated html and template
id, plus shapeId / widgetId when the widget was auto-added. -/
structure GenResult where
  htmlContent : String
  templateId : String
  shapeId : Option String
  widgetId : Option String
deriving DecidableEq

/-- `handleGenerateWidget`: reject a falsy prompt; produce html from the
keyword heuristic; when autoAdd is truthy, also write the generated widget
shape into the store. -/
def handleGenerateWidget (records : List Rec) (body : GenBody) (idTok : String) (now : Nat) :
    Except ToolErr (List Rec × GenResult) :=
  if jsTruthyStr body.prompt = false then .error .missingPrompt
  else
    let htmlContent := generateBasicWidget (body.prompt.getD "")
    if jsTruthyBool body.autoAdd then
      let s := generateWidgetShape body idTok now
      .ok (putRecord records (.shape s),
        ⟨htmlContent, "generated-widget", some s.id, some s.props.widgetId⟩)
    else
      .ok (records, ⟨htmlContent, "generated-widget", none, none⟩)

/-- Key-wise union of `storageData` into an existing storage map, new keys
overriding colliding existing keys (JS spread `{...existing, ...inc}`). -/
def mergeStorage (old inc : Storage) : Storage :=
  old.filter (fun p => !(inc.any (fun q => q.1 == p.1))) ++ inc

/-- Modelled from the spec: the route table registers an update-storage
route calling `handleUpdateWidgetStorage`, but the body of that handler is
not among the repository sources; this definition follows spec section 4.3
`update_widget_storage(shapeId, storageData, merge?)`: WidgetNotFound when
the widget is absent; merge=true unions storageData into the existing
storage (new keys override); merge=false replaces storage wholesale; the
keys that were written are returned. -/
def handleUpdateWidgetStorage (records : List Rec) (shapeId : String)
    (storageData : Storage) (merge : Bool) :
    Except ToolErr (List Rec × List String) :=
  match findWidget records shapeId with
  | none => .error .widgetNotFound
  | some s =>
    let old := s.props.miyagiStorage.getD []
    let newStorage := if merge then mergeStorage old storageData else storageData
    let updated : ShapeRec :=
      { s with props := { s.props with miyagiStorage := some newStorage } }
    .ok (putRecord records (.shape updated), storageData.map (fun p => p.1))

/-- The storage of the widget with the given id, as read back through the
find of the handlers (absent storage reads as the empty map). -/
def storageOf (records : List Rec) (sid : String) : Option Storage :=
  (findWidget records sid).map (fun s => s.props.miyagiStorage.getD [])

/-- The stored htmlContent of the widget with the given id. -/
def htmlOf (records : List Rec) (sid : String) : Option String :=
  (findWidget records sid).map (fun s => s.props.htmlContent)

/-- Failure of the room accessor when called before a room identifier has
been bound (`throw new Error('Missing roomId')`). -/
inductive RoomErr where
  | missingRoomId
deriving DecidableEq

/-- State of the durable-object coordinator relevant to `getRoom`: the
bound room identifier (absent until the first connect stashes it) and the
memoized room promise.  The room promise is created synchronously on the
first successful call and every later caller — including callers arriving
while the construction behind the promise is still outstanding — receives
the very same promise, hence the same room instance; a room instance is
tagged by the value of `constructions`, a counter of how many times the
construction sequence (R2 load, TLSocketRoom creation) has been started. -/
structure DOState where
  roomId : Option String
  roomPromise : Option Nat
  constructions : Nat
deriving DecidableEq

/-- `getRoom`: fail when no room identifier is bound; return the memoized
room promise when present; otherwise start one construction, memoize it
and return it. -/
def getRoom (s : DOState) : Except RoomErr (Nat × DOState) :=
  match s.roomId with
  | none => .error .missingRoomId
  | some _ =>
    match s.roomPromise with
    | some r => .ok (r, s)
    | none =>
      .ok (s.constructions,
        { s with roomPromise := some s.constructions, constructions := s.constructions + 1 })

/-- One `getRoom` call viewed as a state transformer (errors leave the
state unchanged). -/
def stepRoom (s : DOState) : DOState :=
  match getRoom s with
  | .ok (_, s') => s'
  | .error _ => s

/-- State of the throttled persistence scheduler: `schedulePersistToR2 =
throttle(save, 10_000)` from lodash, which is debounce with leading and
trailing edges and `maxWait = wait` (10 time units here).  `lastCall` is
lodash `lastCallTime` (absent before the first notification), `lastInvoke`
is lodash `lastInvokeTime` (initialized to zero), `timer` holds the
instant at which the currently scheduled trailing timer expires (absent
when no timer is scheduled), and `hasArgs` stands for lodash `lastArgs`
being set — a notification whose trailing invocation is still owed.
`muts` counts the mutations applied to the room so far (standing for the
current snapshot) and `saves` logs the R2 writes, most recent first, each
carrying its time and the snapshot it persisted. -/
structure TState where
  lastCall : Option Nat
  lastInvoke : Nat
  timer : Option Nat
  hasArgs : Bool
  muts : Nat
  saves : List (Nat × Nat)
deriving DecidableEq

/-- Initial scheduler state. -/
def tInit : TState := ⟨none, 0, none, false, 0, []⟩

/-- lodash `shouldInvoke(time)`: the first call ever, a full wait since
the last call, or — `maxWait` being set for throttle — a full wait since
the last invocation (time never goes backwards here, so the
negative-elapsed clause of the source is dropped). -/
def shouldInvoke (t : Nat) (s : TState) : Bool :=
  match s.lastCall with
  | none => true
  | some c => (c + 10 ≤ t) || (s.lastInvoke + 10 ≤ t)

/-- lodash `invokeFunc(time)`: clear the stored payload, record the
invoke time and run the wrapped save, which reads
`room.getCurrentSnapshot()` at execution time and writes it to R2. -/
def invokeFn (t : Nat) (s : TState) : TState :=
  ⟨s.lastCall, t, s.timer, false, s.muts, (t, s.muts) :: s.saves⟩

/-- lodash `debounced()` — a call of the throttled function at time `t`
(one mutation notification): record the call and its payload; when
invoking is due, either take the leading edge (no timer scheduled: record
the invoke time, start the trailing timer one window out and invoke now)
or the `maxWait` tight-loop branch (a timer is scheduled: reset it one
window out and invoke now); otherwise start the trailing timer when none
is scheduled. -/
def callPersist (t : Nat) (s : TState) : TState :=
  let isInv := shouldInvoke t s
  let s1 : TState := ⟨some t, s.lastInvoke, s.timer, true, s.muts, s.saves⟩
  if isInv then
    match s1.timer with
    | none => invokeFn t ⟨s1.lastCall, t, some (t + 10), s1.hasArgs, s1.muts, s1.saves⟩
    | some _ =>
      invokeFn t ⟨s1.lastCall, s1.lastInvoke, some (t + 10), s1.hasArgs, s1.muts, s1.saves⟩
  else
    match s1.timer with
    | none => ⟨s1.lastCall, s1.lastInvoke, some (t + 10), s1.hasArgs, s1.muts, s1.saves⟩
    | some _ => s1

/-- lodash `trailingEdge(time)`: drop the timer; invoke when a payload is
owed, else just clear the payload. -/
def trailingEdge (t : Nat) (s : TState) : TState :=
  let s1 : TState := ⟨s.lastCall, s.lastInvoke, none, s.hasArgs, s.muts, s.saves⟩
  if s1.hasArgs then invokeFn t s1
  else ⟨s1.lastCall, s1.lastInvoke, s1.timer, false, s1.muts, s1.saves⟩

/-- lodash `timerExpired()`: take the trailing edge when invoking is due,
else restart the timer for the remaining wait
(`min(wait - timeSinceLastCall, maxWait - timeSinceLastInvoke)`).  With
`maxWait = wait` the restart branch is unreachable: a full window has
always elapsed since whichever event scheduled the expiring timer. -/
def timerExpired (t : Nat) (s : TState) : TState :=
  if shouldInvoke t s then trailingEdge t s
  else ⟨s.lastCall, s.lastInvoke,
    some (min (s.lastCall.getD 0 + 10) (s.lastInvoke + 10)), s.hasArgs, s.muts, s.saves⟩

/-- One unit time step at instant `t` under the mutation schedule `m`: a
timer scheduled for this instant expires first, then a mutation at this
instant (when the schedule has one) updates the room and calls the
throttled save. -/
def tickT (m : Nat → Bool) (t : Nat) (s : TState) : TState :=
  let s1 := if s.timer = some t then timerExpired t s else s
  if m t then
    callPersist t ⟨s1.lastCall, s1.lastInvoke, s1.timer, s1.hasArgs, s1.muts + 1, s1.saves⟩
  else s1

/-- Run the scheduler through instants `0, 1, ..., T-1`. -/
def runT (m : Nat → Bool) : Nat → TState
  | 0 => tInit
  | T + 1 => tickT m T (runT m T)

/-- The number of mutations of the schedule before time `T` — the room
snapshot at time `T` (before the instant-`T` mutation). -/
def countMuts (m : Nat → Bool) (T : Nat) : Nat :=
  ((List.range T).filter m).length

/-- C1: after a room identifier is bound, the construction sequence runs at
most once per process and every `getRoom` call — the first one, and every
later one, whether the construction behind the memoized promise is still
outstanding or completed — returns the same room instance; a call made
before a room identifier is bound fails with the missing-room-identifier
error. -/
theorem getRoom_memoized_single_construction :
    (∀ s : DOState, s.roomId = none → getRoom s = .error .missingRoomId) ∧
    (∀ (s : DOState) (r : Nat) (s₁ : DOState), getRoom s = .ok (r, s₁) →
      s₁.constructions ≤ s.constructions + 1 ∧
      ∀ k : Nat, stepRoom^[k] s₁ = s₁ ∧ getRoom (stepRoom^[k] s₁) = .ok (r, s₁)) := by
  constructor
  · intro s h
    simp [getRoom, h]
  · intro s r s₁ h
    obtain ⟨rid, rp, c⟩ := s
    have key : getRoom s₁ = .ok (r, s₁) ∧ s₁.constructions ≤ c + 1 := by
      cases rid with
      | none => simp [getRoom] at h
      | some v =>
        cases rp with
        | some r' =>
          simp [getRoom] at h
          obtain ⟨h1, h2⟩ := h
          subst h1
          subst h2
          simp [getRoom]
        | none =>
          simp [getRoom] at h
          obtain ⟨h1, h2⟩ := h
          subst h1
          subst h2
          simp [getRoom]
    have hfix : stepRoom s₁ = s₁ := by
      simp [stepRoom, key.1]
    refine ⟨key.2, fun k => ?_⟩
    have hiter : stepRoom^[k] s₁ = s₁ := Function.iterate_fixed hfix k
    rw [hiter]
    exact ⟨rfl, key.1⟩

/-- Witness for C1 at concrete states: the unbound state fails, and after a
first call from a bound state the construction counter advanced by one and
three further calls all return the same room without changing the state. -/
theorem getRoom_memoized_single_construction_witness :
    getRoom ⟨none, none, 0⟩ = .error .missingRoomId ∧
    (DOState.mk (some "room-a") (some 0) 1).constructions ≤
      (DOState.mk (some "room-a") none 0).constructions + 1 ∧
    stepRoom^[3] (DOState.mk (some "room-a") (some 0) 1) = ⟨some "room-a", some 0, 1⟩ ∧
    getRoom (stepRoom^[3] (DOState.mk (some "room-a") (some 0) 1)) =
      .ok (0, ⟨some "room-a", some 0, 1⟩) := by
  have h := getRoom_memoized_single_construction
  have h2 := h.2 ⟨some "room-a", none, 0⟩ 0 ⟨some "room-a", some 0, 1⟩ rfl
  exact ⟨h.1 ⟨none, none, 0⟩ rfl, h2.1, (h2.2 3).1, (h2.2 3).2⟩

/-- C6 counterexample: supplying the empty string as `pageId` is a supplied
page identifier, yet the written widget record gets the literal placeholder
parent `page:page`, not the supplied value — `pageId || 'page:page'` treats
the empty string as absent. -/
theorem addWidget_pageId_counterexample :
    (addWidgetShape ⟨some "timer", some "", none, none⟩ "abc" 5).parentId = "page:page" ∧
    (addWidgetShape ⟨some "timer", some "", none, none⟩ "abc" 5).parentId ≠ "" ∧
    handleAddWidget [] ⟨some "timer", some "", none, none⟩ "abc" 5 =
      .ok ([Rec.shape (addWidgetShape ⟨some "timer", some "", none, none⟩ "abc" 5)],
        "shape:abc", "timer_5", "timer") := by
  refine ⟨rfl, by decide, rfl⟩

/-- C6 (amended): when `pageId` is omitted or empty, the widget record
written by add-widget or auto-added generate-widget carries the literal
placeholder parent `page:page` (independently of the actual pages of the
room, which these handlers never consult); when `pageId` is supplied and
non-empty, the parent is exactly the supplied identifier. -/
theorem addWidget_placeholder_parent :
    (∀ (body : AddBody) (tok : String) (now : Nat),
      (body.pageId = none ∨ body.pageId = some "") →
      (addWidgetShape body tok now).parentId = "page:page") ∧
    (∀ (body : AddBody) (tok : String) (now : Nat) (p : String),
      body.pageId = some p → p ≠ "" → (addWidgetShape body tok now).parentId = p) ∧
    (∀ (body : GenBody) (tok : String) (now : Nat),
      (body.pageId = none ∨ body.pageId = some "") →
      (generateWidgetShape body tok now).parentId = "page:page") ∧
    (∀ (body : GenBody) (tok : String) (now : Nat) (p : String),
      body.pageId = some p → p ≠ "" → (generateWidgetShape body tok now).parentId = p) := by
  refine ⟨fun body tok now h => ?_, fun body tok now p hp hne => ?_,
    fun body tok now h => ?_, fun body tok now p hp hne => ?_⟩ <;>
    first
    | (rcases h with h | h <;> simp [addWidgetShape, generateWidgetShape, jsStrOr, h])
    | simp [addWidgetShape, generateWidgetShape, jsStrOr, hp, hne]

/-- Witness for C6 (amended) at concrete bodies: omitted pageId gives the
placeholder, a supplied non-empty pageId is used exactly. -/
theorem addWidget_placeholder_parent_witness :
    (addWidgetShape ⟨some "timer", none, none, none⟩ "x" 0).parentId = "page:page" ∧
    (addWidgetShape ⟨some "timer", some "page:p1", none, none⟩ "x" 0).parentId = "page:p1" ∧
    (generateWidgetShape ⟨some "hi", none, none, none, some true⟩ "x" 0).parentId = "page:page" ∧
    (generateWidgetShape ⟨some "hi", none, some "page:p2", none, some true⟩ "x" 0).parentId = "page:p2" :=
  ⟨addWidget_placeholder_parent.1 _ "x" 0 (Or.inl rfl),
   addWidget_placeholder_parent.2.1 _ "x" 0 "page:p1" rfl (by decide),
   addWidget_placeholder_parent.2.2.1 _ "x" 0 (Or.inl rfl),
   addWidget_placeholder_parent.2.2.2 _ "x" 0 "page:p2" rfl (by decide)⟩

/-- C9: a supplied position or size component equal to zero is replaced by
the built-in default of that component (x 300, y 200, w 300, h 200 for
add-widget; x 400, y 300 for generate-widget) because the supplied value is
only used when truthy; non-zero supplied components are stored exactly. -/
theorem widget_zero_defaults :
    (∀ (body : AddBody) (tok : String) (now : Nat) (px py : Int),
      body.position = some (px, py) →
      ((px = 0 → (addWidgetShape body tok now).x = 300) ∧
       (px ≠ 0 → (addWidgetShape body tok now).x = px) ∧
       (py = 0 → (addWidgetShape body tok now).y = 200) ∧
       (py ≠ 0 → (addWidgetShape body tok now).y = py))) ∧
    (∀ (body : AddBody) (tok : String) (now : Nat) (sw sz : Int),
      body.size = some (sw, sz) →
      ((sw = 0 → (addWidgetShape body tok now).props.w = 300) ∧
       (sw ≠ 0 → (addWidgetShape body tok now).props.w = sw) ∧
       (sz = 0 → (addWidgetShape body tok now).props.h = 200) ∧
       (sz ≠ 0 → (addWidgetShape body tok now).props.h = sz))) ∧
    (∀ (body : GenBody) (tok : String) (now : Nat) (px py : Int),
      body.position = some (px, py) →
      ((px = 0 → (generateWidgetShape body tok now).x = 400) ∧
       (px ≠ 0 → (generateWidgetShape body tok now).x = px) ∧
       (py = 0 → (generateWidgetShape body tok now).y = 300) ∧
       (py ≠ 0 → (generateWidgetShape body tok now).y = py))) := by
  refine ⟨fun body tok now px py h => ?_, fun body tok now sw sz h => ?_,
    fun body tok now px py h => ?_⟩ <;>
    refine ⟨fun h0 => ?_, fun h0 => ?_, fun h0 => ?_, fun h0 => ?_⟩ <;>
    simp [addWidgetShape, generateWidgetShape, jsIntOr, h, h0]

/-- Witness for C9 at concrete bodies: zero components fall back to the
defaults, non-zero components are stored exactly. -/
theorem widget_zero_defaults_witness :
    (addWidgetShape ⟨some "t", none, some (0, 7), none⟩ "x" 0).x = 300 ∧
    (addWidgetShape ⟨some "t", none, some (0, 7), none⟩ "x" 0).y = 7 ∧
    (addWidgetShape ⟨some "t", none, none, some (5, 0)⟩ "x" 0).props.w = 5 ∧
    (addWidgetShape ⟨some "t", none, none, some (5, 0)⟩ "x" 0).props.h = 200 ∧
    (generateWidgetShape ⟨some "p", none, none, some (0, 9), some true⟩ "x" 0).x = 400 ∧
    (generateWidgetShape ⟨some "p", none, none, some (0, 9), some true⟩ "x" 0).y = 9 := by
  have h1 := widget_zero_defaults.1 ⟨some "t", none, some (0, 7), none⟩ "x" 0 0 7 rfl
  have h2 := widget_zero_defaults.2.1 ⟨some "t", none, none, some (5, 0)⟩ "x" 0 5 0 rfl
  have h3 := widget_zero_defaults.2.2 ⟨some "p", none, none, some (0, 9), some true⟩ "x" 0 0 9 rfl
  exact ⟨h1.1 rfl, h1.2.2.2 (by decide), h2.2.1 (by decide), h2.2.2.1 rfl,
    h3.1 rfl, h3.2.2.2 (by decide)⟩

/-- C7 counterexample: a page whose name is present but empty is projected
to the name `Untitled` (not the empty string the projection of the claim
would give), and a first page whose id is the empty string yields an absent
defaultPage instead of that id — both because `||` treats the empty string
as absent. -/
theorem get_pages_counterexample :
    (handleGetPages [Rec.page ⟨"page:p1", some "", "a1"⟩]).1 =
      [PageView.mk "page:p1" "Untitled" "a1"] ∧
    ("Untitled" : String) ≠ "" ∧
    (handleGetPages [Rec.page ⟨"", some "Home", "a1"⟩]).2 = none ∧
    (none : Option String) ≠ some "" := by
  refine ⟨rfl, by decide, rfl, by decide⟩

/-- C7 (amended): list_pages never fails and returns the page records
projected to id / name / index, the name defaulting to `Untitled` when
absent or empty; the derived defaultPage is the id of the first page in
iteration order when there is one and its id is non-empty, and absent on a
room with zero pages (or an empty first-page id); with two pages inserted
in order, defaultPage is the id of the first. -/
theorem get_pages_projection :
    (∀ records : List Rec,
      (handleGetPages records).1 = (pagesOf records).map (fun p =>
        PageView.mk p.id
          (match p.name with
           | some n => if n = "" then "Untitled" else n
           | none => "Untitled")
          p.index) ∧
      (handleGetPages records).2 =
        (match (pagesOf records).head? with
         | none => none
         | some p => if p.id = "" then none else some p.id)) ∧
    handleGetPages [] = ([], none) ∧
    (∀ p q : PageRec, p.id ≠ "" →
      (handleGetPages [Rec.page p, Rec.page q]).2 = some p.id) := by
  have hmain : ∀ records : List Rec,
      (handleGetPages records).1 = (pagesOf records).map (fun p =>
        PageView.mk p.id
          (match p.name with
           | some n => if n = "" then "Untitled" else n
           | none => "Untitled")
          p.index) ∧
      (handleGetPages records).2 =
        (match (pagesOf records).head? with
         | none => none
         | some p => if p.id = "" then none else some p.id) := by
    intro records
    constructor
    · rfl
    · show (match ((pagesOf records).map
          (fun p => PageView.mk p.id (jsStrOr p.name "Untitled") p.index)).head? with
        | some pv => if pv.id = "" then none else some pv.id
        | none => none) = _
      rw [List.head?_map]
      cases (pagesOf records).head? with
      | none => rfl
      | some p => rfl
  refine ⟨hmain, rfl, fun p q hp => ?_⟩
  have h2 := (hmain [Rec.page p, Rec.page q]).2
  rw [h2]
  simp [pagesOf, pageOf?, hp]

/-- Witness for C7 (amended) at concrete rooms: the projection and derived
default page of a two-page room, and the empty room. -/
theorem get_pages_projection_witness :
    (handleGetPages [Rec.page ⟨"page:p1", some "Page 1", "a1"⟩, Rec.page ⟨"page:p2", none, "a2"⟩]).2 =
      some "page:p1" ∧
    handleGetPages [] = ([], none) := by
  refine ⟨get_pages_projection.2.2 ⟨"page:p1", some "Page 1", "a1"⟩ ⟨"page:p2", none, "a2"⟩ (by decide),
    get_pages_projection.2.1⟩

/-- A successful find returns a widget shape carrying the searched id,
and that shape is a member of the store. -/
theorem findWidget_eq_some {records : List Rec} {sid : String} {s : ShapeRec}
    (h : findWidget records sid = some s) :
    s.id = sid ∧ s.type = "miyagi-widget" ∧ Rec.shape s ∈ records := by
  induction records with
  | nil => simp [findWidget] at h
  | cons r rest ih =>
    cases r with
    | shape q =>
      have hstep : findWidget (Rec.shape q :: rest) sid =
          if q.id == sid && q.type == "miyagi-widget" then some q
          else findWidget rest sid := rfl
      rw [hstep] at h
      by_cases hq : (q.id == sid && q.type == "miyagi-widget") = true
      · rw [if_pos hq] at h
        obtain rfl : q = s := by exact Option.some.inj h
        simp only [Bool.and_eq_true, beq_iff_eq] at hq
        exact ⟨hq.1, hq.2, List.mem_cons_self _ _⟩
      · rw [if_neg hq] at h
        obtain ⟨h1, h2, h3⟩ := ih h
        exact ⟨h1, h2, List.mem_cons_of_mem _ h3⟩
    | page p =>
      have hstep : findWidget (Rec.page p :: rest) sid = findWidget rest sid := rfl
      rw [hstep] at h
      obtain ⟨h1, h2, h3⟩ := ih h
      exact ⟨h1, h2, List.mem_cons_of_mem _ h3⟩
    | other i =>
      have hstep : findWidget (Rec.other i :: rest) sid = findWidget rest sid := rfl
      rw [hstep] at h
      obtain ⟨h1, h2, h3⟩ := ih h
      exact ⟨h1, h2, List.mem_cons_of_mem _ h3⟩

/-- A member with the searched id makes `anyRid` true. -/
theorem anyRid_true_of_mem {records : List Rec} {q : Rec} (h : q ∈ records) :
    anyRid records q.rid = true := by
  induction records with
  | nil => simp at h
  | cons r rest ih =>
    rw [anyRid]
    rcases List.mem_cons.mp h with h1 | h1
    · subst h1
      simp
    · simp [ih h1]

/-- Finding after an id-keyed replacement by a widget shape carrying the
searched id returns the replacement, provided some record carried the id. -/
theorem findWidget_replaceRid {records : List Rec} {sid : String} {s' : ShapeRec}
    (hid : s'.id = sid) (hty : s'.type = "miyagi-widget")
    (hany : anyRid records sid = true) :
    findWidget (replaceRid records sid (Rec.shape s')) sid = some s' := by
  induction records with
  | nil => simp [anyRid] at hany
  | cons r rest ih =>
    rw [anyRid] at hany
    have hcons : replaceRid (r :: rest) sid (Rec.shape s') =
        (if r.rid == sid then Rec.shape s' else r) :: replaceRid rest sid (Rec.shape s') := by
      rw [replaceRid, List.map_cons]
      rfl
    rw [hcons]
    by_cases hr : (r.rid == sid) = true
    · rw [if_pos hr]
      have hstep : findWidget (Rec.shape s' :: replaceRid rest sid (Rec.shape s')) sid =
          if s'.id == sid && s'.type == "miyagi-widget" then some s'
          else findWidget (replaceRid rest sid (Rec.shape s')) sid := rfl
      rw [hstep]
      simp [hid, hty]
    · rw [if_neg hr]
      have hrest : anyRid rest sid = true := by
        rcases Bool.or_eq_true_iff.mp hany with h1 | h1
        · exact absurd h1 hr
        · exact h1
      have htail : findWidget (replaceRid rest sid (Rec.shape s')) sid = some s' :=
        ih hrest
      cases r with
      | shape q =>
        have hq : (q.id == sid) = false := by
          simpa [Rec.rid] using hr
        have hstep : findWidget (Rec.shape q :: replaceRid rest sid (Rec.shape s')) sid =
            if q.id == sid && q.type == "miyagi-widget" then some q
            else findWidget (replaceRid rest sid (Rec.shape s')) sid := rfl
        rw [hstep, hq]
        simpa using htail
      | page p => exact htail
      | other i => exact htail

/-- Finding after a put of a widget shape carrying the id of a previously
found widget returns the put shape. -/
theorem findWidget_putRecord (s' : ShapeRec) {records : List Rec} {sid : String} {s : ShapeRec}
    (hfind : findWidget records sid = some s)
    (hid : s'.id = s.id) (hty : s'.type = "miyagi-widget") :
    findWidget (putRecord records (Rec.shape s')) sid = some s' := by
  obtain ⟨hsid, _, hmem⟩ := findWidget_eq_some hfind
  have hany : anyRid records sid = true := by
    have := anyRid_true_of_mem hmem
    simpa [Rec.rid, hsid] using this
  have hrid : (Rec.shape s').rid = sid := by simp [Rec.rid, hid, hsid]
  rw [putRecord, hrid, if_pos hany]
  exact findWidget_replaceRid (hid.trans hsid) hty hany

/-- A key with no entry in a storage map looks up to nothing. -/
theorem lookupStorage_eq_none {st : Storage} {k : String}
    (h : st.any (fun q => q.1 == k) = false) :
    lookupStorage st k = none := by
  induction st with
  | nil => rfl
  | cons a rest ih =>
    rw [List.any_cons] at h
    rcases Bool.or_eq_false_iff.mp h with ⟨h1, h2⟩
    rw [lookupStorage, List.find?]
    simp only [h1]
    exact ih h2

/-- A key with an entry in a storage map looks up to something. -/
theorem lookupStorage_isSome {st : Storage} {k : String}
    (h : st.any (fun q => q.1 == k) = true) :
    ∃ v, lookupStorage st k = some v := by
  induction st with
  | nil => simp at h
  | cons a rest ih =>
    rw [List.any_cons] at h
    by_cases h1 : (a.1 == k) = true
    · exact ⟨a.2, by rw [lookupStorage, List.find?]; simp [h1]⟩
    · have h2 : rest.any (fun q => q.1 == k) = true := by
        rcases Bool.or_eq_true_iff.mp h with hx | hx
        · exact absurd hx h1
        · exact hx
      obtain ⟨v, hv⟩ := ih h2
      refine ⟨v, ?_⟩
      rw [lookupStorage, List.find?]
      simp only [h1]
      rw [lookupStorage] at hv
      exact hv

/-- Unfolding of storage lookup over a cons cell. -/
theorem lookupStorage_cons (a : String × String) (st : Storage) (k : String) :
    lookupStorage (a :: st) k = if a.1 == k then some a.2 else lookupStorage st k := by
  cases h : (a.1 == k) with
  | true => simp [lookupStorage, List.find?, h]
  | false => simp [lookupStorage, List.find?, h]

/-- The key-wise union semantics of the storage merge: a lookup reads the
incoming data first and falls back to the existing storage. -/
theorem mergeStorage_lookup (old inc : Storage) (k : String) :
    lookupStorage (mergeStorage old inc) k =
      (lookupStorage inc k).orElse (fun _ => lookupStorage old k) := by
  induction old with
  | nil =>
    show lookupStorage inc k = _
    cases h : lookupStorage inc k with
    | none => simp [Option.orElse, h, lookupStorage]
    | some v => simp [Option.orElse, h]
  | cons a old ih =>
    by_cases hc : (inc.any (fun q => q.1 == a.1)) = true
    · have hmerge : mergeStorage (a :: old) inc = mergeStorage old inc := by
        rw [mergeStorage, mergeStorage, List.filter_cons]
        simp [hc]
      rw [hmerge, ih]
      by_cases hk : (a.1 == k) = true
      · obtain rfl : a.1 = k := by exact beq_iff_eq.mp hk
        obtain ⟨v, hv⟩ := lookupStorage_isSome hc
        rw [hv]
        rfl
      · rw [lookupStorage_cons, if_neg (by simp [hk])]
    · have hmerge : mergeStorage (a :: old) inc = a :: mergeStorage old inc := by
        rw [mergeStorage, mergeStorage, List.filter_cons]
        simp only [hc, Bool.not_false, if_true]
        rfl
      rw [hmerge, lookupStorage_cons, lookupStorage_cons]
      by_cases hk : (a.1 == k) = true
      · obtain rfl : a.1 = k := by exact beq_iff_eq.mp hk
        have hc2 : (inc.any (fun q => q.1 == a.1)) = false := by
          cases h2 : inc.any (fun q => q.1 == a.1) with
          | true => exact absurd h2 hc
          | false => rfl
        have hnone : lookupStorage inc a.1 = none := lookupStorage_eq_none hc2
        simp [hnone, Option.orElse]
      · rw [if_neg (by simp [hk]), if_neg (by simp [hk]), ih]

/-- Apply one update-storage call as a state transformer on the record
store (errors leave the store unchanged). -/
def applyUpd (rs : List Rec) (sid : String) (data : Storage) (merge : Bool) : List Rec :=
  match handleUpdateWidgetStorage rs sid data merge with
  | .ok (rs', _) => rs'
  | .error _ => rs

/-- A concrete widget used by the concrete-sequence parts of the claims. -/
def w0 : ShapeRec :=
  ⟨"shape:1", "miyagi-widget", "page:p1", "a1", 10, 20, 0, false, 1, [],
    ⟨300, 200, "timer_1", "timer", "<p>x</p>", "black", some []⟩⟩

/-- C5 (spec-modelled handler): update_widget_storage with merge performs a
key-wise union of storageData into the existing storage (new keys override
colliding keys, other existing keys are retained), without merge replaces
the storage wholesale, and returns the keys that were written; the
two-call sequences of the claim leave exactly the expected storage. -/
theorem update_widget_storage_semantics :
    (∀ (old inc : Storage) (k : String),
      lookupStorage (mergeStorage old inc) k =
        (lookupStorage inc k).orElse (fun _ => lookupStorage old k)) ∧
    (∀ (records : List Rec) (sid : String) (data : Storage) (s : ShapeRec),
      findWidget records sid = some s →
      ∃ records', handleUpdateWidgetStorage records sid data true =
          .ok (records', data.map (fun p => p.1)) ∧
        storageOf records' sid = some (mergeStorage (s.props.miyagiStorage.getD []) data)) ∧
    (∀ (records : List Rec) (sid : String) (data : Storage) (s : ShapeRec),
      findWidget records sid = some s →
      ∃ records', handleUpdateWidgetStorage records sid data false =
          .ok (records', data.map (fun p => p.1)) ∧
        storageOf records' sid = some data) ∧
    storageOf (applyUpd (applyUpd [Rec.shape w0] "shape:1" [("a", "1")] true)
        "shape:1" [("b", "2")] true) "shape:1" = some [("a", "1"), ("b", "2")] ∧
    storageOf (applyUpd (applyUpd [Rec.shape w0] "shape:1" [("a", "1")] true)
        "shape:1" [("b", "2")] false) "shape:1" = some [("b", "2")] := by
  have hgen : ∀ (records : List Rec) (sid : String) (data : Storage) (s : ShapeRec)
      (merge : Bool), findWidget records sid = some s →
      ∃ records', handleUpdateWidgetStorage records sid data merge =
          .ok (records', data.map (fun p => p.1)) ∧
        storageOf records' sid = some (if merge then
          mergeStorage (s.props.miyagiStorage.getD []) data else data) := by
    intro records sid data s merge hfind
    obtain ⟨_, hty, _⟩ := findWidget_eq_some hfind
    refine ⟨putRecord records (Rec.shape
      { s with props := { s.props with miyagiStorage := some (if merge then
          mergeStorage (s.props.miyagiStorage.getD []) data else data) } }), ?_, ?_⟩
    · simp only [handleUpdateWidgetStorage, hfind]
    · rw [storageOf, findWidget_putRecord
        { s with props := { s.props with miyagiStorage := some (if merge then
            mergeStorage (s.props.miyagiStorage.getD []) data else data) } } hfind rfl hty]
      rfl
  refine ⟨mergeStorage_lookup, fun records sid data s hfind => ?_,
    fun records sid data s hfind => ?_, by decide, by decide⟩
  · simpa using hgen records sid data s true hfind
  · simpa using hgen records sid data s false hfind

/-- Witness for C5 at a concrete room: one merge call on the one-widget
room succeeds, returns the written key, and merges into the storage. -/
theorem update_widget_storage_semantics_witness :
    findWidget [Rec.shape w0] "shape:1" = some w0 ∧
    ∃ records', handleUpdateWidgetStorage [Rec.shape w0] "shape:1" [("a", "1")] true =
        .ok (records', ["a"]) ∧
      storageOf records' "shape:1" =
        some (mergeStorage (w0.props.miyagiStorage.getD []) [("a", "1")]) :=
  ⟨by decide,
   update_widget_storage_semantics.2.1 [Rec.shape w0] "shape:1" [("a", "1")] w0 (by decide)⟩

/-- C3 counterexample: a supplied-but-empty htmlContent is rejected with
the missing-content failure even though the widget exists — `!htmlContent`
treats the present empty string as absent, so the operation does not reach
the substitute-and-store path the claim promises for every call where
htmlContent is present and the widget exists. -/
theorem edit_widget_html_counterexample :
    handleEditWidgetHtml [Rec.shape w0] "shape:1" ⟨some "", none⟩ =
      .error .missingHtmlContent ∧
    (some "" : Option String) ≠ none ∧
    findWidget [Rec.shape w0] "shape:1" = some w0 := by
  refine ⟨rfl, by decide, by decide⟩

/-- C3 (amended): edit_widget_html fails with MissingHtmlContent when
htmlContent is absent or empty, fails with WidgetNotFound when (the html
being non-empty) no widget shape with the identifier exists, and otherwise
substitutes placeholders in the supplied html against the widget current
widgetId and storage, overwrites the stored htmlContent with the
substituted result, clears the storage unless preserveStorage is truthy,
and returns the substituted html. -/
theorem edit_widget_html_spec :
    (∀ (records : List Rec) (sid : String) (pres : Option Bool),
      handleEditWidgetHtml records sid ⟨none, pres⟩ = .error .missingHtmlContent) ∧
    (∀ (records : List Rec) (sid : String) (pres : Option Bool),
      handleEditWidgetHtml records sid ⟨some "", pres⟩ = .error .missingHtmlContent) ∧
    (∀ (records : List Rec) (sid : String) (pres : Option Bool) (h : String),
      h ≠ "" → findWidget records sid = none →
      handleEditWidgetHtml records sid ⟨some h, pres⟩ = .error .widgetNotFound) ∧
    (∀ (records : List Rec) (sid : String) (pres : Option Bool) (h : String) (s : ShapeRec),
      h ≠ "" → findWidget records sid = some s →
      ∃ records',
        handleEditWidgetHtml records sid ⟨some h, pres⟩ =
          .ok (records',
            processTemplate h ⟨s.props.widgetId, s.props.miyagiStorage.getD []⟩) ∧
        htmlOf records' sid =
          some (processTemplate h ⟨s.props.widgetId, s.props.miyagiStorage.getD []⟩) ∧
        storageOf records' sid =
          (if jsTruthyBool pres then storageOf records sid else some [])) := by
  refine ⟨fun records sid pres => rfl, fun records sid pres => rfl,
    fun records sid pres h hne hnf => ?_, fun records sid pres h s hne hfind => ?_⟩
  · have ht : jsTruthyStr (some h) = true := by
      simp [jsTruthyStr, hne]
    simp only [handleEditWidgetHtml, ht, hnf]
    rfl
  · have ht : jsTruthyStr (some h) = true := by
      simp [jsTruthyStr, hne]
    obtain ⟨_, hty, _⟩ := findWidget_eq_some hfind
    refine ⟨putRecord records (Rec.shape
      { s with props := { s.props with
          htmlContent := processTemplate h ⟨s.props.widgetId, s.props.miyagiStorage.getD []⟩
          miyagiStorage :=
            if jsTruthyBool pres then s.props.miyagiStorage else some [] } }), ?_, ?_, ?_⟩
    · simp only [handleEditWidgetHtml, ht, hfind, Bool.true_eq_false, if_false]
      rfl
    · rw [htmlOf, findWidget_putRecord
        { s with props := { s.props with
            htmlContent := processTemplate h ⟨s.props.widgetId, s.props.miyagiStorage.getD []⟩
            miyagiStorage :=
              if jsTruthyBool pres then s.props.miyagiStorage else some [] } } hfind rfl hty]
      rfl
    · rw [storageOf, findWidget_putRecord
        { s with props := { s.props with
            htmlContent := processTemplate h ⟨s.props.widgetId, s.props.miyagiStorage.getD []⟩
            miyagiStorage :=
              if jsTruthyBool pres then s.props.miyagiStorage else some [] } } hfind rfl hty]
      rw [storageOf, hfind]
      cases hp : jsTruthyBool pres with
      | true => simp
      | false => simp

/-- Widget with a non-trivial storage, for the C3 witness. -/
def w1 : ShapeRec :=
  ⟨"shape:2", "miyagi-widget", "page:p1", "a1", 0, 0, 0, false, 1, [],
    ⟨300, 200, "notepad_2", "notepad", "<p>y</p>", "black", some [("name", "Ann")]⟩⟩

/-- Witness for C3 (amended) at a concrete call: a non-empty html on an
existing widget substitutes and stores. -/
theorem edit_widget_html_spec_witness :
    ("Hi \x7b\x7bmiyagi-storage:name\x7d\x7d!" : String) ≠ "" ∧
    findWidget [Rec.shape w1] "shape:2" = some w1 ∧
    ∃ records',
      handleEditWidgetHtml [Rec.shape w1] "shape:2"
          ⟨some "Hi \x7b\x7bmiyagi-storage:name\x7d\x7d!", none⟩ =
        .ok (records',
          processTemplate "Hi \x7b\x7bmiyagi-storage:name\x7d\x7d!"
            ⟨w1.props.widgetId, w1.props.miyagiStorage.getD []⟩) ∧
      htmlOf records' "shape:2" =
        some (processTemplate "Hi \x7b\x7bmiyagi-storage:name\x7d\x7d!"
          ⟨w1.props.widgetId, w1.props.miyagiStorage.getD []⟩) ∧
      storageOf records' "shape:2" =
        (if jsTruthyBool none then storageOf [Rec.shape w1] "shape:2" else some []) :=
  ⟨by decide, by decide,
   edit_widget_html_spec.2.2.2 [Rec.shape w1] "shape:2" none
     "Hi \x7b\x7bmiyagi-storage:name\x7d\x7d!" w1 (by decide) (by decide)⟩

/-- C10: a successful edit_widget_html only rewrites the target widget
record — the store becomes an id-keyed pointwise replacement in which the
target keeps every field except the substituted htmlContent and the
cleared-or-preserved storage, and (ids being unique) every other record is
untouched. -/
theorem edit_widget_html_frame :
    ∀ (records : List Rec) (sid : String) (pres : Option Bool) (h : String) (s : ShapeRec),
      h ≠ "" → findWidget records sid = some s →
      (records.map Rec.rid).Nodup →
      ∃ (records' : List Rec) (out : String) (s' : ShapeRec),
        handleEditWidgetHtml records sid ⟨some h, pres⟩ = .ok (records', out) ∧
        records' = records.map (fun q => if q.rid == sid then Rec.shape s' else q) ∧
        records'.length = records.length ∧
        (∀ q ∈ records, q ≠ Rec.shape s → q ∈ records') ∧
        s'.id = s.id ∧ s'.type = s.type ∧ s'.parentId = s.parentId ∧ s'.index = s.index ∧
        s'.x = s.x ∧ s'.y = s.y ∧ s'.rotation = s.rotation ∧ s'.isLocked = s.isLocked ∧
        s'.opacity = s.opacity ∧ s'.meta = s.meta ∧
        s'.props.w = s.props.w ∧ s'.props.h = s.props.h ∧
        s'.props.widgetId = s.props.widgetId ∧ s'.props.templateId = s.props.templateId ∧
        s'.props.color = s.props.color := by
  intro records sid pres h s hne hfind hnd
  obtain ⟨hsid, hty, hmem⟩ := findWidget_eq_some hfind
  have ht : jsTruthyStr (some h) = true := by
    simp [jsTruthyStr, hne]
  have hany : anyRid records sid = true := by
    have := anyRid_true_of_mem hmem
    simpa [Rec.rid, hsid] using this
  have hmap : putRecord records (Rec.shape
      { s with props := { s.props with
          htmlContent := processTemplate h ⟨s.props.widgetId, s.props.miyagiStorage.getD []⟩
          miyagiStorage :=
            if jsTruthyBool pres then s.props.miyagiStorage else some [] } }) =
      records.map (fun q => if q.rid == sid then Rec.shape
        { s with props := { s.props with
            htmlContent := processTemplate h ⟨s.props.widgetId, s.props.miyagiStorage.getD []⟩
            miyagiStorage :=
              if jsTruthyBool pres then s.props.miyagiStorage else some [] } } else q) := by
    simp only [putRecord, Rec.rid, hsid, hany, if_true]
    rfl
  refine ⟨putRecord records (Rec.shape
      { s with props := { s.props with
          htmlContent := processTemplate h ⟨s.props.widgetId, s.props.miyagiStorage.getD []⟩
          miyagiStorage :=
            if jsTruthyBool pres then s.props.miyagiStorage else some [] } }),
    processTemplate h ⟨s.props.widgetId, s.props.miyagiStorage.getD []⟩,
    { s with props := { s.props with
        htmlContent := processTemplate h ⟨s.props.widgetId, s.props.miyagiStorage.getD []⟩
        miyagiStorage :=
          if jsTruthyBool pres then s.props.miyagiStorage else some [] } },
    ?_, hmap, ?_, ?_, rfl, rfl, rfl, rfl, rfl, rfl, rfl, rfl, rfl, rfl, rfl, rfl, rfl,
    rfl, rfl⟩
  · simp only [handleEditWidgetHtml, ht, hfind, Bool.true_eq_false, if_false]
    rfl
  · rw [hmap, List.length_map]
  · rw [hmap]
    intro q hq hqs
    by_cases hr : (q.rid == sid) = true
    · have hq2 : q = Rec.shape s := by
        refine List.inj_on_of_nodup_map hnd hq hmem ?_
        have h1 : q.rid = sid := beq_iff_eq.mp hr
        exact h1.trans hsid.symm
      exact absurd hq2 hqs
    · have hfix : (fun q => if q.rid == sid then Rec.shape
          { s with props := { s.props with
              htmlContent := processTemplate h ⟨s.props.widgetId, s.props.miyagiStorage.getD []⟩
              miyagiStorage :=
                if jsTruthyBool pres then s.props.miyagiStorage else some [] } } else q) q = q := by
        simp [hr]
      exact hfix ▸ List.mem_map_of_mem _ hq

/-- Witness for C10 at a concrete two-record room with distinct ids. -/
theorem edit_widget_html_frame_witness :
    ("X" : String) ≠ "" ∧
    findWidget [Rec.shape w1, Rec.page ⟨"page:p1", some "Page 1", "a1"⟩] "shape:2" = some w1 ∧
    (([Rec.shape w1, Rec.page ⟨"page:p1", some "Page 1", "a1"⟩].map Rec.rid).Nodup) ∧
    ∃ (records' : List Rec) (out : String) (s' : ShapeRec),
      handleEditWidgetHtml [Rec.shape w1, Rec.page ⟨"page:p1", some "Page 1", "a1"⟩]
          "shape:2" ⟨some "X", none⟩ = .ok (records', out) ∧
      records' = [Rec.shape w1, Rec.page ⟨"page:p1", some "Page 1", "a1"⟩].map
        (fun q => if q.rid == "shape:2" then Rec.shape s' else q) ∧
      records'.length = [Rec.shape w1, Rec.page ⟨"page:p1", some "Page 1", "a1"⟩].length ∧
      (∀ q ∈ [Rec.shape w1, Rec.page ⟨"page:p1", some "Page 1", "a1"⟩],
        q ≠ Rec.shape w1 → q ∈ records') ∧
      s'.id = w1.id ∧ s'.type = w1.type ∧ s'.parentId = w1.parentId ∧ s'.index = w1.index ∧
      s'.x = w1.x ∧ s'.y = w1.y ∧ s'.rotation = w1.rotation ∧ s'.isLocked = w1.isLocked ∧
      s'.opacity = w1.opacity ∧ s'.meta = w1.meta ∧
      s'.props.w = w1.props.w ∧ s'.props.h = w1.props.h ∧
      s'.props.widgetId = w1.props.widgetId ∧ s'.props.templateId = w1.props.templateId ∧
      s'.props.color = w1.props.color :=
  ⟨by decide, by decide, by decide,
   edit_widget_html_frame [Rec.shape w1, Rec.page ⟨"page:p1", some "Page 1", "a1"⟩]
     "shape:2" none "X" w1 (by decide) (by decide) (by decide)⟩

/-- Stripping a prefix accounts exactly for the prefix length. -/
theorem dropPrefixCh_length : ∀ {p l r : List Char},
    dropPrefixCh p l = some r → l.length = p.length + r.length := by
  intro p
  induction p with
  | nil =>
    intro l r h
    obtain rfl : l = r := Option.some.inj h
    simp
  | cons a as ih =>
    intro l r h
    cases l with
    | nil => simp [dropPrefixCh] at h
    | cons c cs =>
      rw [dropPrefixCh] at h
      by_cases hac : a = c
      · rw [if_pos hac] at h
        have := ih h
        simp [this]
        ring
      · rw [if_neg hac] at h
        cases h

/-- Stripping a prefix from itself followed by anything succeeds. -/
theorem dropPrefixCh_append : ∀ (p l : List Char), dropPrefixCh p (p ++ l) = some l := by
  intro p
  induction p with
  | nil => intro l; rfl
  | cons a as ih => intro l; simp [dropPrefixCh, ih]

/-- No placeholder matches at a position that does not open a brace. -/
theorem matchPlaceholder_none {st : Storage} {c : Char} {rest : List Char}
    (h : c ≠ '\x7b') : matchPlaceholder st (c :: rest) = none := by
  rw [matchPlaceholder]
  have hd : dropPrefixCh pmPrefix (c :: rest) = none := by
    rw [pmPrefix, dropPrefixCh, if_neg (fun hx => h hx.symm)]
  rw [hd]

/-- A successful placeholder match consumes at least the prefix, one key
character and the two closing braces. -/
theorem matchPlaceholder_length {st : Storage} {l r2 : List Char} {v : String}
    (h : matchPlaceholder st l = some (v, r2)) : r2.length + 20 ≤ l.length := by
  rw [matchPlaceholder] at h
  split at h
  · exact Option.noConfusion h
  · rename_i rem hd
    split at h
    · rename_i k ks r2x htk hdw
      have hx := Option.some.inj h
      have hr2 : r2x = r2 := congrArg Prod.snd hx
      have hlen : l.length = 17 + rem.length := dropPrefixCh_length hd
      have hrem : rem.length = ks.length + 1 + (r2x.length + 2) := by
        have happ := List.takeWhile_append_dropWhile (p := fun ch : Char => ch ≠ '\x7d') (l := rem)
        rw [htk, hdw] at happ
        have hlen2 := congrArg List.length happ
        simp at hlen2
        omega
      have hrlen : r2x.length = r2.length := by rw [hr2]
      omega
    · exact Option.noConfusion h

/-- Any fuel at least the input length gives the canonical scan. -/
theorem substLoop_fuel (st : Storage) : ∀ (fuel : Nat) (l : List Char), l.length ≤ fuel →
    substLoop st fuel l = substT st l := by
  intro fuel
  induction fuel using Nat.strong_induction_on with
  | _ fuel ih =>
    intro l hl
    cases fuel with
    | zero =>
      have hz : l = [] := List.eq_nil_of_length_eq_zero (Nat.le_zero.mp hl)
      subst hz
      rfl
    | succ f =>
      cases l with
      | nil => rfl
      | cons c rest =>
        show substLoop st (f + 1) (c :: rest) = substLoop st (rest.length + 1) (c :: rest)
        rw [substLoop, substLoop]
        cases hm : matchPlaceholder st (c :: rest) with
        | some vr =>
          obtain ⟨v, r2⟩ := vr
          have hlen := matchPlaceholder_length hm
          simp only [List.length_cons] at hlen hl
          have h1 : substLoop st f r2 = substT st r2 :=
            ih f (by omega) r2 (by omega)
          have h2 : substLoop st rest.length r2 = substT st r2 :=
            ih rest.length (by omega) r2 (by omega)
          show v.toList ++ substLoop st f r2 = v.toList ++ substLoop st rest.length r2
          rw [h1, h2]
        | none =>
          have h1 : substLoop st f rest = substT st rest :=
            ih f (by omega) rest (by simp at hl; omega)
          show c :: substLoop st f rest = c :: substLoop st rest.length rest
          rw [h1]
          rfl

/-- The scan over an input whose head position matches a placeholder
emits the replacement and resumes after the match. -/
theorem substT_match {st : Storage} {v : String} {l r2 : List Char}
    (hm : matchPlaceholder st l = some (v, r2)) :
    substT st l = v.toList ++ substT st r2 := by
  cases l with
  | nil =>
    have hnone : matchPlaceholder st [] = none := by
      rw [matchPlaceholder]
      have hd : dropPrefixCh pmPrefix ([] : List Char) = none := rfl
      rw [hd]
    rw [hnone] at hm
    exact Option.noConfusion hm
  | cons c rest =>
    have hlen := matchPlaceholder_length hm
    simp only [List.length_cons] at hlen
    show substLoop st (rest.length + 1) (c :: rest) = _
    rw [substLoop]
    cases hm2 : matchPlaceholder st (c :: rest) with
    | some vr =>
      obtain ⟨rfl, rfl⟩ : vr = (v, r2) := by rw [hm2] at hm; exact Option.some.inj hm
      show v.toList ++ substLoop st rest.length r2 = _
      rw [substLoop_fuel st rest.length r2 (by omega)]
    | none => rw [hm2] at hm; exact Option.noConfusion hm

/-- The scan over an input whose head position does not match emits the
head character and continues on the tail. -/
theorem substT_nomatch {st : Storage} {c : Char} {rest : List Char}
    (hm : matchPlaceholder st (c :: rest) = none) :
    substT st (c :: rest) = c :: substT st rest := by
  show substLoop st (rest.length + 1) (c :: rest) = _
  rw [substLoop]
  cases hm2 : matchPlaceholder st (c :: rest) with
  | some vr => rw [hm2] at hm; exact Option.noConfusion hm
  | none => rfl

/-- The greedy key run of the regex stops exactly at the first closing
brace. -/
theorem takeWhile_brace (key l : List Char) (hk : '\x7d' ∉ key) :
    (key ++ '\x7d' :: l).takeWhile (fun ch => ch ≠ '\x7d') = key := by
  induction key with
  | nil => simp
  | cons a as ih =>
    have ha : a ≠ '\x7d' := fun hx => hk (hx ▸ List.mem_cons_self a as)
    have hpa : decide (a ≠ '\x7d') = true := by simp [ha]
    simp only [List.cons_append, List.takeWhile_cons, hpa, if_true]
    rw [ih (fun hx => hk (List.mem_cons_of_mem _ hx))]

/-- The remainder after the greedy key run starts with the first closing
brace. -/
theorem dropWhile_brace (key l : List Char) (hk : '\x7d' ∉ key) :
    (key ++ '\x7d' :: l).dropWhile (fun ch => ch ≠ '\x7d') = '\x7d' :: l := by
  induction key with
  | nil => simp
  | cons a as ih =>
    have ha : a ≠ '\x7d' := fun hx => hk (hx ▸ List.mem_cons_self a as)
    have hpa : decide (a ≠ '\x7d') = true := by simp [ha]
    simp only [List.cons_append, List.dropWhile_cons, hpa, if_true]
    exact ih (fun hx => hk (List.mem_cons_of_mem _ hx))

/-- A well-formed placeholder occurrence (non-empty key without closing
braces) matches and is replaced by the storage value of the key. -/
theorem matchPlaceholder_at {st : Storage} {key : List Char} (post : List Char)
    (hk1 : key ≠ []) (hk2 : '\x7d' ∉ key) :
    matchPlaceholder st (pmPrefix ++ (key ++ '\x7d' :: '\x7d' :: post)) =
      some ((lookupStorage st (String.mk key)).getD "", post) := by
  have hd := dropPrefixCh_append pmPrefix (key ++ '\x7d' :: '\x7d' :: post)
  have htk : (key ++ '\x7d' :: '\x7d' :: post).takeWhile (fun ch => ch ≠ '\x7d') = key :=
    takeWhile_brace key ('\x7d' :: post) hk2
  have hdw : (key ++ '\x7d' :: '\x7d' :: post).dropWhile (fun ch => ch ≠ '\x7d') =
      '\x7d' :: '\x7d' :: post :=
    dropWhile_brace key ('\x7d' :: post) hk2
  cases key with
  | nil => exact absurd rfl hk1
  | cons k ks =>
    rw [matchPlaceholder]
    split
    · rename_i hnone
      rw [hd] at hnone
      exact Option.noConfusion hnone
    · rename_i rem hsome
      rw [hd] at hsome
      obtain rfl : (k :: ks) ++ '\x7d' :: '\x7d' :: post = rem := Option.some.inj hsome
      split
      · rename_i k' ks' r2' htk' hdw'
        rw [htk] at htk'
        rw [hdw] at hdw'
        obtain ⟨rfl, rfl⟩ : k' = k ∧ ks' = ks := by
          have h1 := List.cons.inj htk'.symm
          exact ⟨h1.1, h1.2⟩
        obtain rfl : r2' = post := by
          have h1 := List.cons.inj hdw'
          have h2 := List.cons.inj h1.2
          exact h2.2.symm
        rfl
      · rename_i hno
        exact (hno k ks post htk hdw).elim

/-- Text without any opening brace is left verbatim by the scan. -/
theorem substT_verbatim (st : Storage) : ∀ (l : List Char), '\x7b' ∉ l → substT st l = l := by
  intro l
  induction l with
  | nil => intro _; rfl
  | cons c rest ih =>
    intro h
    have hc : c ≠ '\x7b' := fun hx => h (hx ▸ List.mem_cons_self c rest)
    rw [substT_nomatch (matchPlaceholder_none hc),
      ih (fun hx => h (List.mem_cons_of_mem _ hx))]

/-- Replacement of a single placeholder occurrence after brace-free
literal text; the suffix is scanned recursively, so any sequence of
placeholder occurrences separated by brace-free text substitutes
every occurrence. -/
theorem substT_single (st : Storage) : ∀ (pre key post : List Char),
    '\x7b' ∉ pre → key ≠ [] → '\x7d' ∉ key →
    substT st (pre ++ (pmPrefix ++ (key ++ '\x7d' :: '\x7d' :: post))) =
      pre ++ (((lookupStorage st (String.mk key)).getD "").toList ++ substT st post) := by
  intro pre key post hpre hk1 hk2
  induction pre with
  | nil =>
    simp only [List.nil_append]
    rw [substT_match (matchPlaceholder_at post hk1 hk2)]
  | cons c pre' ih =>
    have hc : c ≠ '\x7b' := fun hx => hpre (hx ▸ List.mem_cons_self _ _)
    simp only [List.cons_append]
    rw [substT_nomatch (matchPlaceholder_none hc),
      ih (fun hx => hpre (List.mem_cons_of_mem _ hx))]

/-- C4 counterexample: the substitution only recognizes the literal
namespace `miyagi-storage`; the placeholder of the claim with namespace
`ns` is left verbatim and not replaced by the storage value. -/
theorem processTemplate_namespace_counterexample :
    processTemplate "Hi \x7b\x7bns:name\x7d\x7d!" ⟨"w1", [("name", "Ann")]⟩ =
      "Hi \x7b\x7bns:name\x7d\x7d!" ∧
    processTemplate "Hi \x7b\x7bns:name\x7d\x7d!" ⟨"w1", [("name", "Ann")]⟩ ≠ "Hi Ann!" := by
  refine ⟨by decide, by decide⟩

/-- C4 (amended): the template substitution replaces every occurrence of a
placeholder of the literal pattern with the miyagi-storage namespace only,
by the storage value of its key (empty when absent); text without an
opening brace — unmatched or malformed placeholder syntax included — is
left verbatim; the two concrete substitutions of the claim hold with the
miyagi-storage namespace, while the foreign-namespace placeholder stays
verbatim. -/
theorem processTemplate_spec :
    (∀ (st : Storage) (wid : String) (pre key post : List Char),
      '\x7b' ∉ pre → key ≠ [] → '\x7d' ∉ key →
      processTemplate
          (String.mk (pre ++ (pmPrefix ++ (key ++ '\x7d' :: '\x7d' :: post)))) ⟨wid, st⟩ =
        String.mk (pre ++ (((lookupStorage st (String.mk key)).getD "").toList ++
          substT st post))) ∧
    (∀ (st : Storage) (wid : String) (l : List Char), '\x7b' ∉ l →
      processTemplate (String.mk l) ⟨wid, st⟩ = String.mk l) ∧
    processTemplate "Hi \x7b\x7bmiyagi-storage:name\x7d\x7d!" ⟨"w1", [("name", "Ann")]⟩ =
      "Hi Ann!" ∧
    processTemplate "Hi \x7b\x7bmiyagi-storage:name\x7d\x7d!" ⟨"w1", []⟩ = "Hi !" ∧
    processTemplate "Hi \x7b\x7bns:nm\x7d\x7d!" ⟨"w1", [("nm", "Ann")]⟩ =
      "Hi \x7b\x7bns:nm\x7d\x7d!" := by
  refine ⟨fun st wid pre key post h1 h2 h3 => ?_, fun st wid l h => ?_,
    by decide, by decide, by decide⟩
  · exact congrArg String.mk (substT_single st pre key post h1 h2 h3)
  · exact congrArg String.mk (substT_verbatim st l h)

/-- Witness for C4 (amended) at a concrete placeholder occurrence. -/
theorem processTemplate_spec_witness :
    ('\x7b' ∉ "Hi ".toList) ∧ ("nm".toList ≠ ([] : List Char)) ∧ ('\x7d' ∉ "nm".toList) ∧
    processTemplate
        (String.mk ("Hi ".toList ++ (pmPrefix ++ ("nm".toList ++ '\x7d' :: '\x7d' :: "!".toList))))
        ⟨"w1", [("nm", "Ann")]⟩ =
      String.mk ("Hi ".toList ++
        (((lookupStorage [("nm", "Ann")] (String.mk "nm".toList)).getD "").toList ++
          substT [("nm", "Ann")] "!".toList)) :=
  ⟨by decide, by decide, by decide,
   processTemplate_spec.1 [("nm", "Ann")] "w1" "Hi ".toList "nm".toList "!".toList
     (by decide) (by decide) (by decide)⟩

/-- The comma splitter never produces an empty list. -/
theorem splitCommaAux_ne_nil : ∀ (l acc : List Char), splitCommaAux l acc ≠ [] := by
  intro l
  induction l with
  | nil => intro acc h; exact List.noConfusion h
  | cons c rest ih =>
    intro acc
    rw [splitCommaAux]
    by_cases hc : c = ','
    · rw [if_pos hc]
      exact List.cons_ne_nil _ _
    · rw [if_neg hc]
      exact ih _

/-- A split query parameter always has at least one element, so the
length guard of the ids filter is always passed when ids is present. -/
theorem splitParam_length_pos (raw : String) : (splitParam raw).length > 0 :=
  List.length_pos.mpr (splitCommaAux_ne_nil _ _)

/-- The one-pass filterMap of the handler equals projecting to shapes and
filtering. -/
theorem widget_filterMap_eq (records : List Rec) (pageId : Option String) :
    (records.filterMap (fun r =>
      match r with
      | Rec.shape s =>
        if s.type == "miyagi-widget" && pageFilter pageId s then some s else none
      | _ => none)) =
    (records.filterMap shapeOf?).filter
      (fun s => s.type == "miyagi-widget" && pageFilter pageId s) := by
  induction records with
  | nil => rfl
  | cons r rest ih =>
    cases r with
    | shape s =>
      cases hs : (s.type == "miyagi-widget" && pageFilter pageId s) with
      | true =>
        have hL : List.filterMap (fun r =>
            match r with
            | Rec.shape s =>
              if s.type == "miyagi-widget" && pageFilter pageId s then some s else none
            | _ => none) (Rec.shape s :: rest) =
            s :: List.filterMap (fun r =>
              match r with
              | Rec.shape s =>
                if s.type == "miyagi-widget" && pageFilter pageId s then some s else none
              | _ => none) rest := by
          rw [List.filterMap_cons]
          simp only [hs, if_true]
        have hR : List.filter (fun s => s.type == "miyagi-widget" && pageFilter pageId s)
            (List.filterMap shapeOf? (Rec.shape s :: rest)) =
            s :: List.filter (fun s => s.type == "miyagi-widget" && pageFilter pageId s)
              (List.filterMap shapeOf? rest) := by
          have hcons : List.filterMap shapeOf? (Rec.shape s :: rest) =
              s :: List.filterMap shapeOf? rest := by
            rw [List.filterMap_cons]
            rfl
          rw [hcons, List.filter_cons, hs]
          rfl
        rw [hL, hR, ih]
      | false =>
        have hL : List.filterMap (fun r =>
            match r with
            | Rec.shape s =>
              if s.type == "miyagi-widget" && pageFilter pageId s then some s else none
            | _ => none) (Rec.shape s :: rest) =
            List.filterMap (fun r =>
              match r with
              | Rec.shape s =>
                if s.type == "miyagi-widget" && pageFilter pageId s then some s else none
              | _ => none) rest := by
          rw [List.filterMap_cons]
          simp only [hs]
          rfl
        have hR : List.filter (fun s => s.type == "miyagi-widget" && pageFilter pageId s)
            (List.filterMap shapeOf? (Rec.shape s :: rest)) =
            List.filter (fun s => s.type == "miyagi-widget" && pageFilter pageId s)
              (List.filterMap shapeOf? rest) := by
          have hcons : List.filterMap shapeOf? (Rec.shape s :: rest) =
              s :: List.filterMap shapeOf? rest := by
            rw [List.filterMap_cons]
            rfl
          rw [hcons, List.filter_cons, hs]
          rfl
        rw [hL, hR, ih]
    | page p => simp only [List.filterMap_cons, shapeOf?]; exact ih
    | other i => simp only [List.filterMap_cons, shapeOf?]; exact ih

/-- The falsy page filter, written as a disjunction. -/
theorem pageFilter_eq (pageId : Option String) (s : ShapeRec) :
    pageFilter pageId s =
      (match pageId with
       | none => true
       | some p => (p == "") || s.parentId == p) := by
  cases pageId with
  | none => rfl
  | some p =>
    by_cases hp : p = ""
    · simp [pageFilter, hp]
    · simp [pageFilter, hp]


/-- C8 counterexample: an empty supplied `pageId` applies no page filter —
the widget whose parentId differs from the supplied (empty) page id is
still returned, where the claim requires an exact parentId match for every
supplied pageId. -/
theorem get_widgets_pageId_counterexample :
    (handleGetWidgets [Rec.shape w1] (some "") none none).1.map (fun w => w.id) =
      ["shape:2"] ∧
    w1.parentId ≠ "" := by
  refine ⟨by decide, by decide⟩

/-- C8 (amended): the get-widgets result contains exactly the widget-type
shape records, restricted by exact parentId match when pageId is supplied
and non-empty (an empty pageId applies no filter) and by membership in the
comma-split identifier set when ids is supplied; each returned widget
always carries id, widgetId and templateId; each optional projection is
included exactly when fields is absent or names it; and names in fields
other than the five known projections are ignored without error. -/
theorem get_widgets_spec :
    (∀ (records : List Rec) (pageId idsRaw fieldsRaw : Option String),
      (handleGetWidgets records pageId idsRaw fieldsRaw).1 =
        ((records.filterMap shapeOf?).filter (fun s =>
            (s.type == "miyagi-widget" &&
             (match pageId with
              | none => true
              | some p => (p == "") || s.parentId == p)) &&
            (match idsRaw with
             | none => true
             | some raw => (splitParam raw).contains s.id))).map
          (widgetView (fieldsRaw.map splitParam))) ∧
    (∀ (f : Option (List String)) (s : ShapeRec),
      (widgetView f s).id = s.id ∧ (widgetView f s).widgetId = s.props.widgetId ∧
      (widgetView f s).templateId = s.props.templateId) ∧
    (∀ s : ShapeRec,
      (widgetView none s).htmlContent = some s.props.htmlContent ∧
      (widgetView none s).miyagiStorage = some (s.props.miyagiStorage.getD []) ∧
      (widgetView none s).position = some (s.x, s.y) ∧
      (widgetView none s).size = some (s.props.w, s.props.h) ∧
      (widgetView none s).properties = some s.props) ∧
    (∀ (fs : List String) (s : ShapeRec),
      (widgetView (some fs) s).htmlContent =
        (if fs.contains "htmlContent" then some s.props.htmlContent else none) ∧
      (widgetView (some fs) s).miyagiStorage =
        (if fs.contains "miyagiStorage" then some (s.props.miyagiStorage.getD []) else none) ∧
      (widgetView (some fs) s).position =
        (if fs.contains "position" then some (s.x, s.y) else none) ∧
      (widgetView (some fs) s).size =
        (if fs.contains "size" then some (s.props.w, s.props.h) else none) ∧
      (widgetView (some fs) s).properties =
        (if fs.contains "properties" then some s.props else none)) ∧
    (∀ (f1 f2 : List String) (s : ShapeRec),
      (∀ n ∈ ["htmlContent", "miyagiStorage", "position", "size", "properties"],
        f1.contains n = f2.contains n) →
      widgetView (some f1) s = widgetView (some f2) s) := by
  refine ⟨fun records pageId idsRaw fieldsRaw => ?_, fun f s => ⟨rfl, rfl, rfl⟩,
    fun s => ⟨rfl, rfl, rfl, rfl, rfl⟩, fun fs s => ⟨rfl, rfl, rfl, rfl, rfl⟩,
    fun f1 f2 s h => ?_⟩
  · cases idsRaw with
    | none =>
      simp only [handleGetWidgets, Option.map]
      rw [widget_filterMap_eq]
      congr 1
      apply List.filter_congr
      intro s hs
      rw [pageFilter_eq]
      simp
    | some raw =>
      simp only [handleGetWidgets, Option.map]
      rw [if_pos (splitParam_length_pos raw)]
      rw [widget_filterMap_eq, List.filter_filter]
      congr 1
      apply List.filter_congr
      intro s hs
      rw [pageFilter_eq]
      exact Bool.and_comm _ _
  · have h1 := h "htmlContent" (by simp)
    have h2 := h "miyagiStorage" (by simp)
    have h3 := h "position" (by simp)
    have h4 := h "size" (by simp)
    have h5 := h "properties" (by simp)
    simp only [widgetView, includeF]
    simp only [h1, h2, h3, h4, h5]

/-- Witness for C8 at a concrete call: the filter characterization at a
supplied page and ids parameter, and the field-selection congruence for a
selection with an unknown name. -/
theorem get_widgets_spec_witness :
    ((handleGetWidgets [Rec.shape w1] (some "page:p1") (some "shape:2,shape:9") (some "size")).1 =
      (([Rec.shape w1].filterMap shapeOf?).filter (fun s =>
          (s.type == "miyagi-widget" &&
           (match some "page:p1" with
            | none => true
            | some p => (p == "") || s.parentId == p)) &&
          (match some "shape:2,shape:9" with
           | none => true
           | some raw => (splitParam raw).contains s.id))).map
        (widgetView ((some "size").map splitParam))) ∧
    (∀ n ∈ ["htmlContent", "miyagiStorage", "position", "size", "properties"],
      (["unknownName", "size"] : List String).contains n =
        (["size", "otherUnknown"] : List String).contains n) ∧
    widgetView (some ["unknownName", "size"]) w1 = widgetView (some ["size", "otherUnknown"]) w1 :=
  ⟨get_widgets_spec.1 [Rec.shape w1] (some "page:p1") (some "shape:2,shape:9") (some "size"),
   by decide,
   get_widgets_spec.2.2.2.2 ["unknownName", "size"] ["size", "otherUnknown"] w1 (by decide)⟩



/- lodash.throttle scheduler: correctness lemmas for the save log. -/

theorem shouldInvoke_first (t li : Nat) (tm : Option Nat) (ha : Bool) (mu : Nat)
    (sv : List (Nat × Nat)) : shouldInvoke t ⟨none, li, tm, ha, mu, sv⟩ = true := rfl

theorem shouldInvoke_true_call {t c : Nat} (li : Nat) (tm : Option Nat) (ha : Bool) (mu : Nat)
    (sv : List (Nat × Nat)) (h : c + 10 ≤ t) :
    shouldInvoke t ⟨some c, li, tm, ha, mu, sv⟩ = true := by
  simp [shouldInvoke, h]

theorem shouldInvoke_true_invoke {t li : Nat} (c : Nat) (tm : Option Nat) (ha : Bool) (mu : Nat)
    (sv : List (Nat × Nat)) (h : li + 10 ≤ t) :
    shouldInvoke t ⟨some c, li, tm, ha, mu, sv⟩ = true := by
  simp [shouldInvoke, h]

theorem shouldInvoke_stale {t c li : Nat} (tm : Option Nat) (ha : Bool) (mu : Nat)
    (sv : List (Nat × Nat)) (hc : ¬ (c + 10 ≤ t)) (hli : ¬ (li + 10 ≤ t)) :
    shouldInvoke t ⟨some c, li, tm, ha, mu, sv⟩ = false := by
  simp [shouldInvoke, hc, hli]

theorem callPersist_invoke (t : Nat) (lc : Option Nat) (li : Nat) (tm : Option Nat) (ha : Bool)
    (mu : Nat) (sv : List (Nat × Nat)) (h : shouldInvoke t ⟨lc, li, tm, ha, mu, sv⟩ = true) :
    callPersist t ⟨lc, li, tm, ha, mu, sv⟩ = ⟨some t, t, some (t + 10), false, mu, (t, mu) :: sv⟩ := by
  rw [callPersist]
  dsimp only
  rw [h, if_pos rfl]
  cases tm <;> rfl

theorem callPersist_arm (t : Nat) (lc : Option Nat) (li : Nat) (ha : Bool) (mu : Nat)
    (sv : List (Nat × Nat)) (h : shouldInvoke t ⟨lc, li, none, ha, mu, sv⟩ = false) :
    callPersist t ⟨lc, li, none, ha, mu, sv⟩ = ⟨some t, li, some (t + 10), true, mu, sv⟩ := by
  rw [callPersist]
  dsimp only
  rw [h, if_neg Bool.false_ne_true]

theorem callPersist_wait (t : Nat) (lc : Option Nat) (li e : Nat) (ha : Bool) (mu : Nat)
    (sv : List (Nat × Nat)) (h : shouldInvoke t ⟨lc, li, some e, ha, mu, sv⟩ = false) :
    callPersist t ⟨lc, li, some e, ha, mu, sv⟩ = ⟨some t, li, some e, true, mu, sv⟩ := by
  rw [callPersist]
  dsimp only
  rw [h, if_neg Bool.false_ne_true]

theorem timerExpired_save (t : Nat) (lc : Option Nat) (li : Nat) (tm : Option Nat) (mu : Nat)
    (sv : List (Nat × Nat)) (h : shouldInvoke t ⟨lc, li, tm, true, mu, sv⟩ = true) :
    timerExpired t ⟨lc, li, tm, true, mu, sv⟩ = ⟨lc, t, none, false, mu, (t, mu) :: sv⟩ := by
  rw [timerExpired, if_pos h]
  rfl

theorem timerExpired_skip (t : Nat) (lc : Option Nat) (li : Nat) (tm : Option Nat) (mu : Nat)
    (sv : List (Nat × Nat)) (h : shouldInvoke t ⟨lc, li, tm, false, mu, sv⟩ = true) :
    timerExpired t ⟨lc, li, tm, false, mu, sv⟩ = ⟨lc, li, none, false, mu, sv⟩ := by
  rw [timerExpired, if_pos h]
  rfl

theorem countMuts_succ (m : Nat → Bool) (T : Nat) :
    countMuts m (T + 1) = if m T then countMuts m T + 1 else countMuts m T := by
  rw [countMuts, countMuts, List.range_succ, List.filter_append]
  cases hmT : m T with
  | true => simp [List.filter, hmT]
  | false => simp [List.filter, hmT]

theorem countMuts_succ_true {m : Nat → Bool} {T : Nat} (hmT : m T = true) :
    countMuts m (T + 1) = countMuts m T + 1 := by
  rw [countMuts_succ, hmT]
  exact if_pos rfl

theorem countMuts_succ_false {m : Nat → Bool} {T : Nat} (hmT : m T = false) :
    countMuts m (T + 1) = countMuts m T := by
  rw [countMuts_succ, hmT]
  exact if_neg Bool.false_ne_true

/-- The machine invariant at instant `T` (before the instant-`T` step):
the room state counts the mutations so far; before the first notification
everything is at its initial value; afterwards the last call and last
invoke lie in the past, the save log is headed by the last invoke and
bounded by it, and a scheduled timer lies in the future, at most one
window after the last call and at least one window after the last
invoke. -/
def InvT (m : Nat → Bool) (T : Nat) (s : TState) : Prop :=
  s.muts = countMuts m T ∧
  (match s.lastCall with
   | none => s.lastInvoke = 0 ∧ s.timer = none ∧ s.hasArgs = false ∧ s.saves = []
   | some c => c < T ∧ s.lastInvoke < T ∧
       (∃ x rest, s.saves = (s.lastInvoke, x) :: rest) ∧
       (∀ p ∈ s.saves, p.1 ≤ s.lastInvoke) ∧
       (∀ e, s.timer = some e → T ≤ e ∧ e ≤ c + 10 ∧ s.lastInvoke + 10 ≤ e))

theorem tickT_nofire (m : Nat → Bool) (t : Nat) (s : TState) (h : ¬ s.timer = some t) :
    tickT m t s = if m t then
      callPersist t ⟨s.lastCall, s.lastInvoke, s.timer, s.hasArgs, s.muts + 1, s.saves⟩
    else s := by
  rw [tickT]
  rw [if_neg h]

theorem tickT_fire (m : Nat → Bool) (t : Nat) (s s' : TState) (h : s.timer = some t)
    (h2 : timerExpired t s = s') :
    tickT m t s = if m t then
      callPersist t ⟨s'.lastCall, s'.lastInvoke, s'.timer, s'.hasArgs, s'.muts + 1, s'.saves⟩
    else s' := by
  rw [tickT]
  rw [if_pos h, h2]


/-- Introduction rule for the invariant stated over the plain fields of the state. -/
theorem InvT_intro (m : Nat → Bool) (T : Nat) (lc : Option Nat) (li : Nat)
    (tm : Option Nat) (ha : Bool) (mu : Nat) (sv : List (Nat × Nat))
    (h1 : mu = countMuts m T)
    (h2 : match lc with
      | none => li = 0 ∧ tm = none ∧ ha = false ∧ sv = []
      | some c => c < T ∧ li < T ∧
          (∃ x rest, sv = (li, x) :: rest) ∧
          (∀ p ∈ sv, p.1 ≤ li) ∧
          (∀ e, tm = some e → T ≤ e ∧ e ≤ c + 10 ∧ li + 10 ≤ e)) :
    InvT m T ⟨lc, li, tm, ha, mu, sv⟩ :=
  ⟨h1, h2⟩

/-- The scheduler invariant holds along the whole run. -/
theorem inv_runT (m : Nat → Bool) : ∀ T : Nat, InvT m T (runT m T) := by
  intro T
  induction T with
  | zero => exact ⟨rfl, rfl, rfl, rfl, rfl⟩
  | succ T ih =>
    rcases hsx : runT m T with ⟨lc, li, tm, ha, mu, sv⟩
    rw [hsx] at ih
    obtain ⟨hmu, hrest⟩ := ih
    have hmu' : mu = countMuts m T := hmu
    have hrun : runT m (T + 1) = tickT m T ⟨lc, li, tm, ha, mu, sv⟩ := by
      show tickT m T (runT m T) = _
      rw [hsx]
    rw [hrun]
    cases lc with
    | none =>
      obtain ⟨h1, h2, h3, h4⟩ := hrest
      have hli : li = 0 := h1
      have htm : tm = none := h2
      have hha : ha = false := h3
      have hsv : sv = [] := h4
      subst hli
      subst htm
      subst hha
      subst hsv
      rw [tickT_nofire m T _ (by simp)]
      cases hmT : m T with
      | true =>
        rw [if_pos rfl]
        rw [callPersist_invoke T none 0 none false (mu + 1) []
          (shouldInvoke_first T 0 none false (mu + 1) [])]
        refine InvT_intro m (T + 1) _ _ _ _ _ _ ?_ ?_
        · show mu + 1 = countMuts m (T + 1)
          rw [countMuts_succ_true hmT, hmu']
        · refine ⟨by omega, by omega, ⟨mu + 1, [], rfl⟩, ?_, ?_⟩
          · intro p hp
            obtain rfl := List.mem_singleton.mp hp
            exact Nat.le_refl T
          · intro d hd
            obtain rfl : T + 10 = d := Option.some.inj hd
            exact ⟨by omega, by omega, by omega⟩
      | false =>
        rw [if_neg Bool.false_ne_true]
        refine InvT_intro m (T + 1) _ _ _ _ _ _ ?_ ?_
        · show mu = countMuts m (T + 1)
          rw [countMuts_succ_false hmT, hmu']
        · exact ⟨rfl, rfl, rfl, rfl⟩
    | some c =>
      obtain ⟨hc, hliT, hhead, hbound, htimer⟩ := hrest
      have hc' : c < T := hc
      have hli' : li < T := hliT
      obtain ⟨x, rest, hsv'⟩ := hhead
      have hbound' : ∀ p ∈ sv, p.1 ≤ li := hbound
      have htimer' : ∀ e, tm = some e → T ≤ e ∧ e ≤ c + 10 ∧ li + 10 ≤ e := htimer
      cases tm with
      | some e =>
        obtain ⟨hTe, hec, hlie⟩ := htimer' e rfl
        by_cases heT : e = T
        · cases ha with
          | true =>
            have hlit : li + 10 ≤ T := by omega
            have hsi : shouldInvoke T ⟨some c, li, some e, true, mu, sv⟩ = true :=
              shouldInvoke_true_invoke c (some e) true mu sv hlit
            rw [tickT_fire m T ⟨some c, li, some e, true, mu, sv⟩
              ⟨some c, T, none, false, mu, (T, mu) :: sv⟩ (by rw [heT])
              (timerExpired_save T (some c) li (some e) mu sv hsi)]
            cases hmT : m T with
            | true =>
              rw [if_pos rfl]
              by_cases hcall : c + 10 ≤ T
              · rw [callPersist_invoke T (some c) T none false (mu + 1) ((T, mu) :: sv)
                  (shouldInvoke_true_call T none false (mu + 1) ((T, mu) :: sv) hcall)]
                refine InvT_intro m (T + 1) _ _ _ _ _ _ ?_ ?_
                · show mu + 1 = countMuts m (T + 1)
                  rw [countMuts_succ_true hmT, hmu']
                · refine ⟨by omega, by omega, ⟨mu + 1, (T, mu) :: sv, rfl⟩, ?_, ?_⟩
                  · intro p hp
                    rcases List.mem_cons.mp hp with h | h
                    · obtain rfl := h
                      exact Nat.le_refl T
                    · rcases List.mem_cons.mp h with h2 | h2
                      · obtain rfl := h2
                        exact Nat.le_refl T
                      · exact le_trans (hbound' p h2) (le_of_lt hli')
                  · intro d hd
                    obtain rfl : T + 10 = d := Option.some.inj hd
                    exact ⟨by omega, by omega, by omega⟩
              · have hsi2 : shouldInvoke T ⟨some c, T, none, false, mu + 1, (T, mu) :: sv⟩
                    = false :=
                  shouldInvoke_stale none false (mu + 1) ((T, mu) :: sv) hcall (by omega)
                rw [callPersist_arm T (some c) T false (mu + 1) ((T, mu) :: sv) hsi2]
                refine InvT_intro m (T + 1) _ _ _ _ _ _ ?_ ?_
                · show mu + 1 = countMuts m (T + 1)
                  rw [countMuts_succ_true hmT, hmu']
                · refine ⟨by omega, by omega, ⟨mu, sv, rfl⟩, ?_, ?_⟩
                  · intro p hp
                    rcases List.mem_cons.mp hp with h | h
                    · obtain rfl := h
                      exact Nat.le_refl T
                    · exact le_trans (hbound' p h) (le_of_lt hli')
                  · intro d hd
                    obtain rfl : T + 10 = d := Option.some.inj hd
                    exact ⟨by omega, by omega, by omega⟩
            | false =>
              rw [if_neg Bool.false_ne_true]
              refine InvT_intro m (T + 1) _ _ _ _ _ _ ?_ ?_
              · show mu = countMuts m (T + 1)
                rw [countMuts_succ_false hmT, hmu']
              · refine ⟨by omega, by omega, ⟨mu, sv, rfl⟩, ?_, ?_⟩
                · intro p hp
                  rcases List.mem_cons.mp hp with h | h
                  · obtain rfl := h
                    exact Nat.le_refl T
                  · exact le_trans (hbound' p h) (le_of_lt hli')
                · intro d hd
                  exact Option.noConfusion hd
          | false =>
            have hlit : li + 10 ≤ T := by omega
            have hsi : shouldInvoke T ⟨some c, li, some e, false, mu, sv⟩ = true :=
              shouldInvoke_true_invoke c (some e) false mu sv hlit
            rw [tickT_fire m T ⟨some c, li, some e, false, mu, sv⟩
              ⟨some c, li, none, false, mu, sv⟩ (by rw [heT])
              (timerExpired_skip T (some c) li (some e) mu sv hsi)]
            cases hmT : m T with
            | true =>
              rw [if_pos rfl]
              have hsi2 : shouldInvoke T ⟨some c, li, none, false, mu + 1, sv⟩ = true :=
                shouldInvoke_true_invoke c none false (mu + 1) sv hlit
              rw [callPersist_invoke T (some c) li none false (mu + 1) sv hsi2]
              refine InvT_intro m (T + 1) _ _ _ _ _ _ ?_ ?_
              · show mu + 1 = countMuts m (T + 1)
                rw [countMuts_succ_true hmT, hmu']
              · refine ⟨by omega, by omega, ⟨mu + 1, sv, rfl⟩, ?_, ?_⟩
                · intro p hp
                  rcases List.mem_cons.mp hp with h | h
                  · obtain rfl := h
                    exact Nat.le_refl T
                  · exact le_trans (hbound' p h) (le_of_lt hli')
                · intro d hd
                  obtain rfl : T + 10 = d := Option.some.inj hd
                  exact ⟨by omega, by omega, by omega⟩
            | false =>
              rw [if_neg Bool.false_ne_true]
              refine InvT_intro m (T + 1) _ _ _ _ _ _ ?_ ?_
              · show mu = countMuts m (T + 1)
                rw [countMuts_succ_false hmT, hmu']
              · exact ⟨by omega, by omega, ⟨x, rest, hsv'⟩, hbound',
                  fun d hd => Option.noConfusion hd⟩
        · rw [tickT_nofire m T _ (by
            intro hx
            exact heT (Option.some.inj hx))]
          cases hmT : m T with
          | true =>
            rw [if_pos rfl]
            by_cases hinv : shouldInvoke T ⟨some c, li, some e, ha, mu + 1, sv⟩ = true
            · rw [callPersist_invoke T (some c) li (some e) ha (mu + 1) sv hinv]
              refine InvT_intro m (T + 1) _ _ _ _ _ _ ?_ ?_
              · show mu + 1 = countMuts m (T + 1)
                rw [countMuts_succ_true hmT, hmu']
              · refine ⟨by omega, by omega, ⟨mu + 1, sv, rfl⟩, ?_, ?_⟩
                · intro p hp
                  rcases List.mem_cons.mp hp with h | h
                  · obtain rfl := h
                    exact Nat.le_refl T
                  · exact le_trans (hbound' p h) (le_of_lt hli')
                · intro d hd
                  obtain rfl : T + 10 = d := Option.some.inj hd
                  exact ⟨by omega, by omega, by omega⟩
            · have hinv2 : shouldInvoke T ⟨some c, li, some e, ha, mu + 1, sv⟩ = false := by
                cases hx : shouldInvoke T ⟨some c, li, some e, ha, mu + 1, sv⟩ with
                | true => exact absurd hx hinv
                | false => rfl
              rw [callPersist_wait T (some c) li e ha (mu + 1) sv hinv2]
              refine InvT_intro m (T + 1) _ _ _ _ _ _ ?_ ?_
              · show mu + 1 = countMuts m (T + 1)
                rw [countMuts_succ_true hmT, hmu']
              · refine ⟨by omega, by omega, ⟨x, rest, hsv'⟩, hbound', ?_⟩
                intro d hd
                obtain rfl : e = d := Option.some.inj hd
                exact ⟨by omega, by omega, by omega⟩
          | false =>
            rw [if_neg Bool.false_ne_true]
            refine InvT_intro m (T + 1) _ _ _ _ _ _ ?_ ?_
            · show mu = countMuts m (T + 1)
              rw [countMuts_succ_false hmT, hmu']
            · refine ⟨by omega, by omega, ⟨x, rest, hsv'⟩, hbound', ?_⟩
              intro d hd
              obtain rfl : e = d := Option.some.inj hd
              exact ⟨by omega, by omega, by omega⟩
      | none =>
        rw [tickT_nofire m T _ (by simp)]
        cases hmT : m T with
        | true =>
          rw [if_pos rfl]
          by_cases hinv : shouldInvoke T ⟨some c, li, none, ha, mu + 1, sv⟩ = true
          · rw [callPersist_invoke T (some c) li none ha (mu + 1) sv hinv]
            refine InvT_intro m (T + 1) _ _ _ _ _ _ ?_ ?_
            · show mu + 1 = countMuts m (T + 1)
              rw [countMuts_succ_true hmT, hmu']
            · refine ⟨by omega, by omega, ⟨mu + 1, sv, rfl⟩, ?_, ?_⟩
              · intro p hp
                rcases List.mem_cons.mp hp with h | h
                · obtain rfl := h
                  exact Nat.le_refl T
                · exact le_trans (hbound' p h) (le_of_lt hli')
              · intro d hd
                obtain rfl : T + 10 = d := Option.some.inj hd
                exact ⟨by omega, by omega, by omega⟩
          · have hinv2 : shouldInvoke T ⟨some c, li, none, ha, mu + 1, sv⟩ = false := by
              cases hx : shouldInvoke T ⟨some c, li, none, ha, mu + 1, sv⟩ with
              | true => exact absurd hx hinv
              | false => rfl
            rw [callPersist_arm T (some c) li ha (mu + 1) sv hinv2]
            refine InvT_intro m (T + 1) _ _ _ _ _ _ ?_ ?_
            · show mu + 1 = countMuts m (T + 1)
              rw [countMuts_succ_true hmT, hmu']
            · refine ⟨by omega, by omega, ⟨x, rest, hsv'⟩, hbound', ?_⟩
              intro d hd
              obtain rfl : T + 10 = d := Option.some.inj hd
              exact ⟨by omega, by omega, by omega⟩
        | false =>
          rw [if_neg Bool.false_ne_true]
          refine InvT_intro m (T + 1) _ _ _ _ _ _ ?_ ?_
          · show mu = countMuts m (T + 1)
            rw [countMuts_succ_false hmT, hmu']
          · exact ⟨by omega, by omega, ⟨x, rest, hsv'⟩, hbound',
              fun d hd => Option.noConfusion hd⟩

/-- The trailing edge only prepends an entry timestamped with the current instant. -/
theorem trailingEdge_saves (t : Nat) (lc : Option Nat) (li : Nat) (tm : Option Nat)
    (ha : Bool) (mu : Nat) (sv : List (Nat × Nat)) :
    ∃ pre, (trailingEdge t ⟨lc, li, tm, ha, mu, sv⟩).saves = pre ++ sv ∧
      ∀ p ∈ pre, p.1 = t := by
  cases ha with
  | true =>
    refine ⟨[(t, mu)], rfl, ?_⟩
    intro p hp
    obtain rfl := List.mem_singleton.mp hp
    rfl
  | false =>
    refine ⟨[], rfl, ?_⟩
    intro p hp
    simp at hp

/-- A timer expiry only prepends an entry timestamped with the current instant. -/
theorem timerExpired_saves (t : Nat) (lc : Option Nat) (li : Nat) (tm : Option Nat)
    (ha : Bool) (mu : Nat) (sv : List (Nat × Nat)) :
    ∃ pre, (timerExpired t ⟨lc, li, tm, ha, mu, sv⟩).saves = pre ++ sv ∧
      ∀ p ∈ pre, p.1 = t := by
  rw [timerExpired]
  cases hsi : shouldInvoke t ⟨lc, li, tm, ha, mu, sv⟩ with
  | true =>
    rw [if_pos rfl]
    exact trailingEdge_saves t lc li none ha mu sv
  | false =>
    rw [if_neg Bool.false_ne_true]
    refine ⟨[], rfl, ?_⟩
    intro p hp
    simp at hp

/-- A notification call only prepends an entry timestamped with the current instant. -/
theorem callPersist_saves (t : Nat) (lc : Option Nat) (li : Nat) (tm : Option Nat)
    (ha : Bool) (mu : Nat) (sv : List (Nat × Nat)) :
    ∃ pre, (callPersist t ⟨lc, li, tm, ha, mu, sv⟩).saves = pre ++ sv ∧
      ∀ p ∈ pre, p.1 = t := by
  cases hsi : shouldInvoke t ⟨lc, li, tm, ha, mu, sv⟩ with
  | true =>
    rw [callPersist]
    dsimp only
    rw [hsi, if_pos rfl]
    cases tm with
    | none =>
      refine ⟨[(t, mu)], rfl, ?_⟩
      intro p hp
      obtain rfl := List.mem_singleton.mp hp
      rfl
    | some e =>
      refine ⟨[(t, mu)], rfl, ?_⟩
      intro p hp
      obtain rfl := List.mem_singleton.mp hp
      rfl
  | false =>
    rw [callPersist]
    dsimp only
    rw [hsi, if_neg Bool.false_ne_true]
    cases tm with
    | none =>
      refine ⟨[], rfl, ?_⟩
      intro p hp
      simp at hp
    | some e =>
      refine ⟨[], rfl, ?_⟩
      intro p hp
      simp at hp

/-- One tick of the run only prepends save entries timestamped with the current instant. -/
theorem tickT_saves (m : Nat → Bool) (t : Nat) (s : TState) :
    ∃ pre, (tickT m t s).saves = pre ++ s.saves ∧ ∀ p ∈ pre, p.1 = t := by
  obtain ⟨lc, li, tm, ha, mu, sv⟩ := s
  have hmain : ∀ (lc2 : Option Nat) (li2 : Nat) (tm2 : Option Nat) (ha2 : Bool) (mu2 : Nat)
      (sv2 : List (Nat × Nat)),
      (∃ pre1, sv2 = pre1 ++ sv ∧ ∀ p ∈ pre1, p.1 = t) →
      ∃ pre, (if m t then
          callPersist t ⟨lc2, li2, tm2, ha2, mu2 + 1, sv2⟩
        else (⟨lc2, li2, tm2, ha2, mu2, sv2⟩ : TState)).saves = pre ++ sv ∧
        ∀ p ∈ pre, p.1 = t := by
    intro lc2 li2 tm2 ha2 mu2 sv2 hpre
    obtain ⟨pre1, hpre1, hall1⟩ := hpre
    cases hmt : m t with
    | true =>
      rw [if_pos rfl]
      obtain ⟨pre2, hpre2, hall2⟩ := callPersist_saves t lc2 li2 tm2 ha2 (mu2 + 1) sv2
      refine ⟨pre2 ++ pre1, ?_, ?_⟩
      · rw [hpre2, hpre1, List.append_assoc]
      · intro p hp
        rcases List.mem_append.mp hp with h | h
        · exact hall2 p h
        · exact hall1 p h
    | false =>
      rw [if_neg Bool.false_ne_true]
      exact ⟨pre1, hpre1, hall1⟩
  rw [tickT]
  dsimp only
  by_cases hft : (⟨lc, li, tm, ha, mu, sv⟩ : TState).timer = some t
  · rw [if_pos hft]
    obtain ⟨pre1, hpre1, hall1⟩ := timerExpired_saves t lc li tm ha mu sv
    exact hmain (timerExpired t ⟨lc, li, tm, ha, mu, sv⟩).lastCall
      (timerExpired t ⟨lc, li, tm, ha, mu, sv⟩).lastInvoke
      (timerExpired t ⟨lc, li, tm, ha, mu, sv⟩).timer
      (timerExpired t ⟨lc, li, tm, ha, mu, sv⟩).hasArgs
      (timerExpired t ⟨lc, li, tm, ha, mu, sv⟩).muts
      (timerExpired t ⟨lc, li, tm, ha, mu, sv⟩).saves
      ⟨pre1, hpre1, hall1⟩
  · rw [if_neg hft]
    refine hmain lc li tm ha mu sv ⟨[], rfl, ?_⟩
    intro p hp
    simp at hp

/-- Save entries appended after instant u all carry timestamps at least u. -/
theorem saves_after (m : Nat → Bool) (u T : Nat) (h : u ≤ T) :
    ∃ pre, (runT m T).saves = pre ++ (runT m u).saves ∧ ∀ p ∈ pre, u ≤ p.1 := by
  induction T, h using Nat.le_induction with
  | base =>
    refine ⟨[], rfl, ?_⟩
    intro p hp
    simp at hp
  | succ T hT ih =>
    obtain ⟨pre, hpre, hall⟩ := ih
    obtain ⟨pre2, hpre2, hall2⟩ := tickT_saves m T (runT m T)
    refine ⟨pre2 ++ pre, ?_, ?_⟩
    · show (tickT m T (runT m T)).saves = _
      rw [hpre2, hpre, List.append_assoc]
    · intro p hp
      rcases List.mem_append.mp hp with h2 | h2
      · rw [hall2 p h2]
        exact hT
      · exact hall p h2

/-- While a trailing timer set for t0 + 10 is pending with the last call strictly
inside the invoke-anchored window, later ticks up to the window end keep the timer,
the anchor, the pending flag and the save log unchanged (only lastCall advances). -/
theorem throttle_stable (m : Nat → Bool) (t1 t0 : Nat)
    (h1 : (runT m t1).timer = some (t0 + 10))
    (h2 : (runT m t1).lastInvoke = t0)
    (h3 : (runT m t1).hasArgs = true)
    (h4 : ∃ c0, (runT m t1).lastCall = some c0 ∧ t0 < c0) :
    ∀ u, t1 ≤ u → u ≤ t0 + 10 →
      (runT m u).timer = some (t0 + 10) ∧ (runT m u).lastInvoke = t0 ∧
      (runT m u).hasArgs = true ∧
      (∃ c, (runT m u).lastCall = some c ∧ t0 < c) ∧
      (runT m u).saves = (runT m t1).saves := by
  intro u hu
  induction u, hu using Nat.le_induction with
  | base => exact fun _ => ⟨h1, h2, h3, h4, rfl⟩
  | succ u hu ih =>
    intro hle
    obtain ⟨i1, i2, i3, ⟨c, i4, i5⟩, i6⟩ := ih (by omega)
    rcases hsx : runT m u with ⟨lc, li, tm, ha, mu, sv⟩
    rw [hsx] at i1 i2 i3 i4 i6
    have hI := inv_runT m u
    rw [hsx] at hI
    obtain ⟨-, hIm⟩ := hI
    have j1 : tm = some (t0 + 10) := i1
    have j2 : t0 = li := i2.symm
    have j3 : ha = true := i3
    have j4 : lc = some c := i4
    have j6 : sv = (runT m t1).saves := i6
    subst j1
    subst j2
    subst j3
    subst j4
    subst j6
    obtain ⟨hcu, -⟩ := hIm
    have hrun : runT m (u + 1)
        = tickT m u ⟨some c, t0, some (t0 + 10), true, mu, (runT m t1).saves⟩ := by
      show tickT m u (runT m u) = _
      rw [hsx]
    rw [hrun]
    rw [tickT_nofire m u _ (by
      intro hx
      have := Option.some.inj hx
      omega)]
    cases hmu2 : m u with
    | true =>
      rw [if_pos rfl]
      have hsi : shouldInvoke u
          ⟨some c, t0, some (t0 + 10), true, mu + 1, (runT m t1).saves⟩ = false :=
        shouldInvoke_stale (some (t0 + 10)) true (mu + 1) ((runT m t1).saves)
          (by omega) (by omega)
      rw [callPersist_wait u (some c) t0 (t0 + 10) true (mu + 1) ((runT m t1).saves) hsi]
      exact ⟨rfl, rfl, rfl, ⟨u, rfl, by omega⟩, rfl⟩
    | false =>
      rw [if_neg Bool.false_ne_true]
      exact ⟨rfl, rfl, rfl, ⟨c, rfl, i5⟩, rfl⟩

/-- C2 (amended): once the scheduler is pending a trailing invoke -- the timer is set
for t0 + 10 where t0 is the last invoke instant, and the last notification arrived
strictly inside that window -- the notifications coalesce into exactly one save in the
half-open window (t0, t0 + 10], executed at the window end t0 + 10, and its snapshot
counts every mutation notified before t0 + 10 (so the state after the last coalesced
mutation, not an intermediate one). The original fixed-window at-most-one-save claim
is refuted separately: a notification arriving a full wait after the previous
notification triggers an immediate leading save. -/
theorem persist_throttle_trailing (m : Nat → Bool) (t1 t0 c0 T : Nat)
    (h1 : (runT m t1).timer = some (t0 + 10))
    (h2 : (runT m t1).lastInvoke = t0)
    (h3 : (runT m t1).hasArgs = true)
    (h4 : (runT m t1).lastCall = some c0)
    (h5 : t0 < c0)
    (h6 : t0 + 10 < T) :
    (runT m T).saves.filter (fun p => decide (t0 < p.1) && decide (p.1 ≤ t0 + 10))
      = [(t0 + 10, countMuts m (t0 + 10))] := by
  have ht1w : t1 ≤ t0 + 10 := by
    have hI := inv_runT m t1
    rcases hsy : runT m t1 with ⟨lc, li, tm, ha, mu1, sv1⟩
    rw [hsy] at hI h1 h4
    obtain ⟨-, hIm⟩ := hI
    have j4 : lc = some c0 := h4
    subst j4
    obtain ⟨-, -, -, -, htmc⟩ := hIm
    have j1 : tm = some (t0 + 10) := h1
    obtain ⟨hw, -, -⟩ := htmc (t0 + 10) j1
    exact hw
  obtain ⟨s1, s2, s3, ⟨c, s4, s5⟩, -⟩ :=
    throttle_stable m t1 t0 h1 h2 h3 ⟨c0, h4, h5⟩ (t0 + 10) ht1w (Nat.le_refl _)
  have hIw := inv_runT m (t0 + 10)
  rcases hsz : runT m (t0 + 10) with ⟨lc, li, tm, ha, mu, sv⟩
  rw [hsz] at hIw s1 s2 s3 s4
  have j1 : tm = some (t0 + 10) := s1
  have j2 : t0 = li := s2.symm
  have j3 : ha = true := s3
  have j4 : lc = some c := s4
  subst j1
  subst j2
  subst j3
  subst j4
  obtain ⟨hmuw, hImw⟩ := hIw
  obtain ⟨-, -, -, hboundw, -⟩ := hImw
  have hrun : runT m (t0 + 10 + 1)
      = tickT m (t0 + 10) ⟨some c, t0, some (t0 + 10), true, mu, sv⟩ := by
    show tickT m (t0 + 10) (runT m (t0 + 10)) = _
    rw [hsz]
  have hsi : shouldInvoke (t0 + 10) ⟨some c, t0, some (t0 + 10), true, mu, sv⟩ = true :=
    shouldInvoke_true_invoke c (some (t0 + 10)) true mu sv (by omega)
  have hfire := tickT_fire m (t0 + 10) ⟨some c, t0, some (t0 + 10), true, mu, sv⟩
    ⟨some c, t0 + 10, none, false, mu, (t0 + 10, mu) :: sv⟩ rfl
    (timerExpired_save (t0 + 10) (some c) t0 (some (t0 + 10)) mu sv hsi)
  have hsaves11 : (runT m (t0 + 10 + 1)).saves = (t0 + 10, mu) :: sv := by
    rw [hrun, hfire]
    cases hmw : m (t0 + 10) with
    | true =>
      rw [if_pos rfl]
      show (callPersist (t0 + 10)
        ⟨some c, t0 + 10, none, false, mu + 1, (t0 + 10, mu) :: sv⟩).saves
        = (t0 + 10, mu) :: sv
      have hstale : shouldInvoke (t0 + 10)
          ⟨some c, t0 + 10, none, false, mu + 1, (t0 + 10, mu) :: sv⟩ = false :=
        shouldInvoke_stale none false (mu + 1) ((t0 + 10, mu) :: sv) (by omega) (by omega)
      rw [callPersist_arm (t0 + 10) (some c) (t0 + 10) false (mu + 1)
        ((t0 + 10, mu) :: sv) hstale]
    | false =>
      rw [if_neg Bool.false_ne_true]
  obtain ⟨pre, hpre, hall⟩ := saves_after m (t0 + 10 + 1) T (by omega)
  have hf1 : pre.filter (fun p => decide (t0 < p.1) && decide (p.1 ≤ t0 + 10)) = [] := by
    refine List.filter_eq_nil_iff.mpr ?_
    intro p hp
    have h7 := hall p hp
    simp only [Bool.and_eq_true, decide_eq_true_eq]
    omega
  have hf2 : sv.filter (fun p => decide (t0 < p.1) && decide (p.1 ≤ t0 + 10)) = [] := by
    refine List.filter_eq_nil_iff.mpr ?_
    intro p hp
    have h7 := hboundw p hp
    simp only [Bool.and_eq_true, decide_eq_true_eq]
    omega
  have hfh : (fun p : Nat × Nat => decide (t0 < p.1) && decide (p.1 ≤ t0 + 10))
      (t0 + 10, mu) = true := by
    simp only [Bool.and_eq_true, decide_eq_true_eq]
    exact ⟨Nat.lt_add_of_pos_right (by omega), Nat.le_refl _⟩
  have hfc : ((t0 + 10, mu) :: sv).filter
      (fun p => decide (t0 < p.1) && decide (p.1 ≤ t0 + 10))
      = (t0 + 10, mu) :: sv.filter (fun p => decide (t0 < p.1) && decide (p.1 ≤ t0 + 10)) :=
    List.filter_cons_of_pos hfh
  have hmu2 : mu = countMuts m (t0 + 10) := hmuw
  rw [hpre, hsaves11, List.filter_append, hf1, hfc, hf2, hmu2]
  rfl

/-- Mutation schedule with notifications at instants 0, 5 and 16. -/
def mutSched016 : Nat → Bool := fun x => x == 0 || x == 5 || x == 16

/-- Mutation schedule with notifications at instants 0, 3 and 5. -/
def mutSched3 : Nat → Bool := fun x => x == 0 || x == 3 || x == 5

/-- C2 counterexample to the original claim: with notifications at 0, 5 and 16 the
scheduler saves at 0, 10 and 16 -- two saves inside the fixed window [10, 20), and the
notification at 16 is not coalesced into a trailing save. -/
theorem persist_throttle_counterexample :
    (runT mutSched016 17).saves = [(16, 3), (10, 2), (0, 1)] ∧
    ((runT mutSched016 17).saves.filter
      (fun p => decide (10 ≤ p.1) && decide (p.1 < 20))).length = 2 :=
  ⟨by decide, by decide⟩

/-- Witness: with notifications at 0, 3 and 5, at instant 6 the scheduler is pending
with timer 10 and anchor 0, and the run up to 11 shows the single coalesced trailing
save (10, 3). -/
theorem persist_throttle_trailing_witness :
    (runT mutSched3 6).timer = some (0 + 10) ∧
    (runT mutSched3 6).lastInvoke = 0 ∧
    (runT mutSched3 6).hasArgs = true ∧
    (runT mutSched3 6).lastCall = some 5 ∧
    0 < 5 ∧ 0 + 10 < 11 ∧
    (runT mutSched3 11).saves.filter (fun p => decide (0 < p.1) && decide (p.1 ≤ 0 + 10))
      = [(0 + 10, countMuts mutSched3 (0 + 10))] :=
  ⟨by decide, by decide, by decide, by decide, by decide, by decide,
    persist_throttle_trailing mutSched3 6 0 5 11 (by decide) (by decide) (by decide)
      (by decide) (by decide) (by decide)⟩

